import Mathlib

/-!
Verification of the data-duper per-column generation engine.

The development shallowly embeds the code of `src/duper` (the generator
classes under `src/duper/generator`, the helpers in `src/duper/helper.py`
and the selector in `src/duper/analysis.py`) in Lean 4:

* machine floats are modelled by exact rationals `ℚ`;
* numpy `datetime64` values are modelled by their integer tick count
  (nanoseconds since the 1970-01-01 epoch), with calendar conversions
  modelled by an explicit proleptic-Gregorian day/month/year arithmetic;
* fallible constructors return `Except Err`, mirroring the `ValueError` /
  `TypeError` taxonomy of the Python code;
* random draws (`np.random.uniform`) are passed in explicitly as rational
  parameters in `[0, 1)`.

Definitions are translated from the Python source; where a definition
models behaviour of a third-party library call (numpy, pandas, rstr) whose
code is not part of the repository, the doc string says so.
-/

namespace DuperSpec

/-! ### np.around: round-half-to-even on rationals -/

/-- Round a rational to the nearest integer, ties to even.
Models numpy rounding (`np.around` with 0 decimals). -/
def rhe (q : ℚ) : ℤ :=
  let f := ⌊q⌋
  if q - f < 1/2 then f
  else if 1/2 < q - f then f + 1
  else if Even f then f else f + 1

/-- `np.around(q, decimals := d)`: scale by `10^d`, round half to even,
scale back.  `d` may be negative. -/
def aroundQ (q : ℚ) (d : ℤ) : ℚ := (rhe (q * (10 : ℚ) ^ d) : ℚ) / (10 : ℚ) ^ d

/-- `q` is exactly representable with `d` decimal digits. -/
def ExactAt (q : ℚ) (d : ℤ) : Prop := ∃ k : ℤ, q * (10 : ℚ) ^ d = (k : ℚ)

theorem rhe_intCast (n : ℤ) : rhe (n : ℚ) = n := by
  unfold rhe
  have h : ⌊(n : ℚ)⌋ = n := Int.floor_intCast n
  rw [h]
  norm_num

theorem rhe_eq_floor {q : ℚ} (h : q - ⌊q⌋ < 1/2) : rhe q = ⌊q⌋ := by
  unfold rhe
  rw [if_pos h]

theorem rhe_eq_floor_add_one {q : ℚ} (h : 1/2 < q - ⌊q⌋) : rhe q = ⌊q⌋ + 1 := by
  unfold rhe
  rw [if_neg (by linarith), if_pos h]

theorem aroundQ_of_exact {q : ℚ} {d : ℤ} (h : ExactAt q d) : aroundQ q d = q := by
  obtain ⟨k, hk⟩ := h
  unfold aroundQ
  rw [hk, rhe_intCast, ← hk]
  have h10 : (10 : ℚ) ^ d ≠ 0 := zpow_ne_zero d (by norm_num)
  field_simp

theorem exactAt_of_eq_around {q : ℚ} {d : ℤ} (h : q = aroundQ q d) : ExactAt q d := by
  refine ⟨rhe (q * (10 : ℚ) ^ d), ?_⟩
  have h10 : (10 : ℚ) ^ d ≠ 0 := zpow_ne_zero d (by norm_num)
  conv_lhs => rw [h]
  unfold aroundQ
  field_simp

theorem eq_around_of_exactAt {q : ℚ} {d : ℤ} (h : ExactAt q d) : q = aroundQ q d :=
  (aroundQ_of_exact h).symm

theorem exactAt_mono {q : ℚ} {d e : ℤ} (h : ExactAt q d) (hde : d ≤ e) :
    ExactAt q e := by
  obtain ⟨k, hk⟩ := h
  refine ⟨k * 10 ^ (e - d).toNat, ?_⟩
  have h1 : (10 : ℚ) ^ e = (10 : ℚ) ^ d * (10 : ℚ) ^ (e - d) := by
    rw [← zpow_add₀ (by norm_num : (10 : ℚ) ≠ 0)]
    ring_nf
  have h2 : (10 : ℚ) ^ (e - d) = (10 : ℚ) ^ (e - d).toNat := by
    rw [← zpow_natCast]
    congr 1
    omega
  rw [h1, ← mul_assoc, hk, h2]
  push_cast
  ring

/-! ### helper.number_precision -/

/-- The scan loop of `helper.number_precision`: increase the decimal index
until rounding no longer changes any value, or the fuel (the cap
`max = 16`) runs out. -/
def numberPrecisionGo (a : List ℚ) : ℤ → ℕ → ℤ
  | d, 0 => d
  | d, fuel + 1 =>
    if a.any (fun q => decide (¬ q = aroundQ q d)) then
      numberPrecisionGo a (d + 1) fuel
    else d

/-- `np.amax`: maximum of the values (junk `0` on the empty list, where
numpy would raise). -/
def maxList (a : List ℚ) : ℚ := a.foldl max (a.headD 0)

/-- `helper.number_precision(a)` with the default cap `max = 16`:
start from `-ceil(log10(abs(amax(a))))` and scan upward.
(The numpy source first drops NaN entries; lists here are NaN-free.) -/
def numberPrecision (a : List ℚ) : ℤ :=
  let d := -(Int.clog 10 |maxList a|)
  numberPrecisionGo a d (16 - d).toNat

theorem numberPrecisionGo_exact {a : List ℚ} :
    ∀ (fuel : ℕ) (d : ℤ), (∃ m : ℤ, d ≤ m ∧ m ≤ d + fuel ∧ ∀ q ∈ a, ExactAt q m) →
      ∀ q ∈ a, ExactAt q (numberPrecisionGo a d fuel) := by
  intro fuel
  induction fuel with
  | zero =>
    intro d ⟨m, hdm, hmd, hex⟩ q hq
    unfold numberPrecisionGo
    have : m = d := by omega
    exact this ▸ hex q hq
  | succ n ih =>
    intro d ⟨m, hdm, hmd, hex⟩ q hq
    unfold numberPrecisionGo
    by_cases hc : a.any (fun q => decide (¬ q = aroundQ q d)) = true
    · rw [if_pos hc]
      rcases List.any_eq_true.mp hc with ⟨p, hp, hpd⟩
      have hne : ¬ p = aroundQ p d := by simpa using hpd
      have hdm' : d + 1 ≤ m := by
        rcases eq_or_lt_of_le hdm with heq | hlt
        · exact absurd (eq_around_of_exactAt (heq ▸ hex p hp)) hne
        · omega
      exact ih (d + 1) ⟨m, hdm', by omega, hex⟩ q hq
    · rw [if_neg hc]
      have hall : ∀ p ∈ a, p = aroundQ p d := by
        intro p hp
        by_contra hne
        exact hc (List.any_eq_true.mpr ⟨p, hp, by simpa using hne⟩)
      exact exactAt_of_eq_around (hall q hq)

theorem numberPrecision_exact {a : List ℚ} {m : ℤ}
    (hm : ∀ q ∈ a, ExactAt q m) (h16 : m ≤ 16) :
    ∀ q ∈ a, ExactAt q (numberPrecision a) := by
  unfold numberPrecision
  set d := -(Int.clog 10 |maxList a|) with hd
  rcases le_or_lt d m with hdm | hmd
  · exact numberPrecisionGo_exact (16 - d).toNat d ⟨m, hdm, by omega, hm⟩
  · refine numberPrecisionGo_exact (16 - d).toNat d ⟨d, le_refl d, by omega, ?_⟩
    exact fun q hq => exactAt_mono (hm q hq) (by omega)

theorem clog10_eq {r : ℚ} {z : ℤ} (hr : 0 < r)
    (h1 : (10 : ℚ) ^ (z - 1) < r) (h2 : r ≤ (10 : ℚ) ^ z) :
    Int.clog 10 r = z := by
  have hb : (10 : ℚ) = ((10 : ℕ) : ℚ) := by norm_num
  rw [hb] at h1 h2
  have hle : Int.clog 10 r ≤ z := (Int.le_zpow_iff_clog_le (by norm_num) hr).mp h2
  have hlt : z - 1 < Int.clog 10 r := (Int.zpow_lt_iff_lt_clog (by norm_num) hr).mp h1
  omega

/-- When no scanned index makes all values exact, the `number_precision`
loop exhausts its fuel (the `d < max` guard) and returns the cap. -/
theorem numberPrecisionGo_eq_of_never {a : List ℚ} :
    ∀ (fuel : ℕ) (d : ℤ),
      (∀ e : ℤ, d ≤ e → e < d + fuel → ∃ q ∈ a, ¬ q = aroundQ q e) →
      numberPrecisionGo a d fuel = d + fuel := by
  intro fuel
  induction fuel with
  | zero =>
    intro d h
    unfold numberPrecisionGo
    push_cast
    ring
  | succ n ih =>
    intro d h
    unfold numberPrecisionGo
    have hw : ∃ q ∈ a, ¬ q = aroundQ q d := h d (le_refl d) (by push_cast; omega)
    have hany : a.any (fun q => decide (¬ q = aroundQ q d)) = true := by
      rcases hw with ⟨q, hq, hqd⟩
      exact List.any_eq_true.mpr ⟨q, hq, by simpa using hqd⟩
    rw [if_pos hany]
    rw [ih (d + 1) (fun e he1 he2 => h e (by omega) (by push_cast at he2 ⊢; omega))]
    push_cast
    ring

/-! ### helper.gcd and helper.roundx -/

/-- `np.gcd.reduce`: left fold of the integer gcd over a list
(junk `0` on the empty list, where numpy would raise). -/
def gcdList (l : List ℤ) : ℤ :=
  match l with
  | [] => 0
  | x :: xs => xs.foldl (fun g y => (Int.gcd g y : ℤ)) x

/-- `helper.gcd(a)`: find the decimal precision `n` of the values, scale
them to integers, reduce with the integer gcd and scale back.
(The final cast `a.dtype.type(...)` of the Python code is the identity on
the exact rational result and is omitted.) -/
def gcdQ (a : List ℚ) : ℚ :=
  let n := numberPrecision a
  let intRepr := a.map (fun q => rhe (q * (10 : ℚ) ^ n))
  aroundQ ((gcdList intRepr : ℚ) / (10 : ℚ) ^ n) n

/-- `helper.roundx(a, x)`: round `a` to the closest multiple of `x`
(then round the product to the decimal precision of `x`). -/
def roundxQ (a x : ℚ) : ℚ :=
  aroundQ (x * (rhe (a / x) : ℚ)) (numberPrecision [x])

theorem gcdList_ne_zero {l : List ℤ} (h : ∃ x ∈ l, x ≠ 0) : gcdList l ≠ 0 := by
  match l with
  | [] => simp at h
  | x :: xs =>
    unfold gcdList
    have h' : x ≠ 0 ∨ ∃ y ∈ xs, y ≠ 0 := by
      rcases h with ⟨z, hz, hz0⟩
      rcases List.mem_cons.mp hz with rfl | hz'
      · exact Or.inl hz0
      · exact Or.inr ⟨z, hz', hz0⟩
    clear h
    induction xs generalizing x with
    | nil => simpa using h'
    | cons y ys ih =>
      simp only [List.foldl_cons]
      refine ih (Int.gcd x y : ℤ) ?_
      have hg : x ≠ 0 ∨ y ≠ 0 → (Int.gcd x y : ℤ) ≠ 0 := fun hxy => by
        have hpos : 0 < Int.gcd x y := Int.gcd_pos_iff.mpr hxy
        exact_mod_cast hpos.ne'
      rcases h' with hx | ⟨z, hz, hz0⟩
      · exact Or.inl (hg (Or.inl hx))
      · rcases List.mem_cons.mp hz with rfl | hz'
        · exact Or.inl (hg (Or.inr hz0))
        · exact Or.inr ⟨z, hz', hz0⟩

/-- Core of the multiple-of-gcd property: `roundx(a, x)` is an integer
multiple of `x` whenever `x` is nonzero and exactly representable at its
detected decimal precision. -/
theorem roundxQ_multiple {x : ℚ} (a : ℚ) (hx : x ≠ 0)
    (hex : ExactAt x (numberPrecision [x])) :
    ∃ k : ℤ, roundxQ a x = k * x := by
  refine ⟨rhe (a / x), ?_⟩
  unfold roundxQ
  obtain ⟨c, hc⟩ := hex
  have hexact : ExactAt (x * (rhe (a / x) : ℚ)) (numberPrecision [x]) := by
    refine ⟨rhe (a / x) * c, ?_⟩
    push_cast
    calc x * (rhe (a / x) : ℚ) * (10 : ℚ) ^ numberPrecision [x]
        = (rhe (a / x) : ℚ) * (x * (10 : ℚ) ^ numberPrecision [x]) := by ring
      _ = (rhe (a / x) : ℚ) * (c : ℚ) := by rw [hc]
  rw [aroundQ_of_exact hexact]
  ring

/-! ### Data model: dtypes and error kinds -/

/-- Logical numpy dtype classes distinguished by the code. -/
inductive Dtype
  | bool | int | float | datetime | str | obj
deriving DecidableEq

/-- Python exception classes raised by the generators. -/
inductive Err
  | valueError | typeError
deriving DecidableEq

/-! ### QuantileGenerator (src/duper/generator/quantile.py) -/

/-- `np.sort`, modelled by insertion sort with `≤`. -/
def sortQ (l : List ℚ) : List ℚ := List.insertionSort (· ≤ ·) l

/-- `np.linspace(0, 1, n)`: the rationals `i / (n-1)` for `i < n`. -/
def linspace (n : ℕ) : List ℚ :=
  (List.range n).map (fun (i : ℕ) => (i : ℚ) / ((n : ℚ) - 1))

/-- The duplicate-collapsing mask `np.r_[True, vals[2:] - vals[:-2] != 0, True]`
of `QuantileGenerator.__init__`: position `i` is kept iff it is the first or
last position or the values two apart differ. -/
def maskKeep (v : List ℚ) : List Bool :=
  (List.range v.length).map (fun i =>
    decide (i = 0) || decide (i = v.length - 1) ||
      decide (v.getD (i + 1) 0 - v.getD (i - 1) 0 ≠ 0))

/-- Boolean-mask selection `a[mask]` on numpy arrays. -/
def applyMask (l : List α) (m : List Bool) : List α :=
  ((l.zip m).filter (fun p => p.2)).map (fun p => p.1)

/-- The state of a fitted quantile generator: retained sorted values, their
breakpoints, the dtype tag and the NA rate. -/
structure QGen where
  vals : List ℚ
  bins : List ℚ
  dtype : Dtype
  naRate : ℚ
deriving DecidableEq

/-- `QuantileGenerator.__init__(vals, bins, dtype, na_rate)`:
validation (`n ≥ 2`, shape match, `na_rate ∈ [0,1]`), then sort and collapse
interior duplicate runs. -/
def quantileInit (vals : List ℚ) (binsOpt : Option (List ℚ)) (dtype : Dtype)
    (naRate : ℚ) : Except Err QGen :=
  let n := vals.length
  if n < 2 then .error .valueError
  else
    let bins := match binsOpt with
      | none => linspace n
      | some b => b
    if bins.length ≠ n then .error .valueError
    else
      let sorted := sortQ vals
      let mask := maskKeep sorted
      if naRate < 0 ∨ 1 < naRate then .error .valueError
      else .ok ⟨applyMask sorted mask, applyMask bins mask, dtype, naRate⟩

/-- `Numeric.from_data(data)`: `Generator.validate` (non-empty, dtype in
`[np.int_, np.float_]`), drop NaN entries, then the quantile initializer with
`na_rate = 1 - vals.size / data.size`.  Missing entries are `none`. -/
def numericFromData (dtype : Dtype) (data : List (Option ℚ)) : Except Err QGen :=
  if data.length = 0 then .error .valueError
  else if ¬ (dtype = .int ∨ dtype = .float) then .error .typeError
  else
    let vals := data.filterMap id
    quantileInit vals none dtype (1 - (vals.length : ℚ) / (data.length : ℚ))

/-- `Datetime.from_data(data)` over tick values: `Generator.validate`
(non-empty, dtype `np.datetime64`), then the shared quantile initializer. -/
def datetimeFromData (dtype : Dtype) (data : List (Option ℚ)) : Except Err QGen :=
  if data.length = 0 then .error .valueError
  else if ¬ (dtype = .datetime) then .error .typeError
  else
    let vals := data.filterMap id
    quantileInit vals none dtype (1 - (vals.length : ℚ) / (data.length : ℚ))

/-! ### helper.interp -/

/-- `np.searchsorted(xp, x)` (left side) on a sorted list: the number of
elements strictly below `x`. -/
def searchsortedL (xp : List ℚ) (x : ℚ) : ℕ := xp.countP (fun y => decide (y < x))

/-- numpy indexing with a possibly negative index (a single wrap, as used by
`helper.interp` for `i - 1` when `i = 0`). -/
def getWrapQ (l : List ℚ) (i : ℤ) : ℚ :=
  if i < 0 then l.getD (l.length - (-i).toNat) 0 else l.getD i.toNat 0

/-- `helper.interp(x, xp, fp)`: find the bracketing interval by binary search
and interpolate linearly. -/
def interpQ (x : ℚ) (xp fp : List ℚ) : ℚ :=
  let i : ℤ := (searchsortedL xp x : ℤ)
  (x - getWrapQ xp (i - 1)) / (getWrapQ xp i - getWrapQ xp (i - 1)) *
      (getWrapQ fp i - getWrapQ fp (i - 1)) + getWrapQ fp (i - 1)

/-- `helper.interp` with the numpy `IndexError` made explicit: `xp[i]` and
`fp[i]` raise when the insertion index reaches the array length. -/
def interpE (x : ℚ) (xp fp : List ℚ) : Option ℚ :=
  let i := searchsortedL xp x
  if i < xp.length ∧ i < fp.length then some (interpQ x xp fp) else none

/-! ### Claim C2: the fitted quantile state -/

/-- Spec-side collapse rule: position `i` of the sorted values is dropped
exactly when it is an interior element of a run of three or more identical
consecutive values (equal to both its predecessor and its successor). -/
def specMask (l : List ℚ) : List Bool :=
  (List.range l.length).map (fun i =>
    decide (¬ (0 < i ∧ i < l.length - 1 ∧
      l.getD (i - 1) 0 = l.getD i 0 ∧ l.getD i 0 = l.getD (i + 1) 0)))

/-- Spec-side breakpoints: value number `i` of `n` gets breakpoint
`i / (n - 1)`. -/
def specBreakpoints (n : ℕ) : List ℚ :=
  (List.range n).map (fun (i : ℕ) => (i : ℚ) / ((n : ℚ) - 1))

theorem linspace_eq_specBreakpoints (n : ℕ) : linspace n = specBreakpoints n := rfl

theorem linspace_length (n : ℕ) : (linspace n).length = n := by
  unfold linspace
  rw [List.length_map, List.length_range]

theorem applyMask_sublist : ∀ (l : List α) (m : List Bool), List.Sublist (applyMask l m) l := by
  intro l
  induction l with
  | nil => intro m; simp [applyMask]
  | cons a t ih =>
    intro m
    match m with
    | [] => simp [applyMask]
    | b :: mt =>
      by_cases hb : b = true
      · subst hb
        simpa [applyMask] using (ih mt).cons₂ a
      · have hb' : b = false := by simpa using hb
        subst hb'
        simpa [applyMask] using (ih mt).cons a

theorem sorted_getD_le {l : List ℚ} (hs : List.Sorted (· ≤ ·) l) {i j : ℕ}
    (hij : i ≤ j) (hj : j < l.length) : l.getD i 0 ≤ l.getD j 0 := by
  rw [List.getD_eq_getElem l 0 (lt_of_le_of_lt hij hj), List.getD_eq_getElem l 0 hj]
  rcases eq_or_lt_of_le hij with heq | hlt
  · subst heq; exact le_refl _
  · exact hs.rel_get_of_lt (by simpa using hlt)

theorem maskKeep_eq_specMask {l : List ℚ} (hs : List.Sorted (· ≤ ·) l) :
    maskKeep l = specMask l := by
  unfold maskKeep specMask
  refine List.map_congr_left ?_
  intro i hi
  rw [List.mem_range] at hi
  rcases eq_or_ne i 0 with h0 | h0
  · subst h0
    simp
  rcases eq_or_ne i (l.length - 1) with h1 | h1
  · rw [h1]
    simp
  have hi1 : i < l.length - 1 := by omega
  have hab : l.getD (i - 1) 0 ≤ l.getD i 0 := sorted_getD_le hs (by omega) (by omega)
  have hbc : l.getD i 0 ≤ l.getD (i + 1) 0 := sorted_getD_le hs (by omega) (by omega)
  have hiff : (i = 0 ∨ i = l.length - 1 ∨ l.getD (i + 1) 0 - l.getD (i - 1) 0 ≠ 0) ↔
      ¬ (0 < i ∧ i < l.length - 1 ∧
        l.getD (i - 1) 0 = l.getD i 0 ∧ l.getD i 0 = l.getD (i + 1) 0) := by
    constructor
    · rintro (h | h | h)
      · omega
      · omega
      · rintro ⟨-, -, hab', hbc'⟩
        exact h (by rw [← hbc', ← hab']; ring)
    · intro h
      refine Or.inr (Or.inr ?_)
      intro heq
      have hac : l.getD (i + 1) 0 = l.getD (i - 1) 0 := by linarith
      have hab' : l.getD (i - 1) 0 = l.getD i 0 :=
        le_antisymm hab (hac ▸ hbc)
      have hbc' : l.getD i 0 = l.getD (i + 1) 0 :=
        le_antisymm hbc (hac ▸ hab' ▸ le_refl _)
      exact h ⟨by omega, hi1, hab', hbc'⟩
  calc (decide (i = 0) || decide (i = l.length - 1) ||
        decide (l.getD (i + 1) 0 - l.getD (i - 1) 0 ≠ 0))
      = decide (i = 0 ∨ i = l.length - 1 ∨ l.getD (i + 1) 0 - l.getD (i - 1) 0 ≠ 0) := by
        simp [Bool.or_assoc]
    _ = decide (¬ (0 < i ∧ i < l.length - 1 ∧
        l.getD (i - 1) 0 = l.getD i 0 ∧ l.getD i 0 = l.getD (i + 1) 0)) :=
        decide_eq_decide.mpr hiff

theorem linspace_six : linspace 6 = [0, 1/5, 2/5, 3/5, 4/5, 1] := by
  unfold linspace
  rw [show List.range 6 = [0, 1, 2, 3, 4, 5] from rfl]
  simp
  norm_num

theorem maskKeep_ex : maskKeep [2, 2, 2, 4, 6, 8] = [true, false, true, true, true, true] := by
  unfold maskKeep
  rw [show ([2, 2, 2, 4, 6, 8] : List ℚ).length = 6 from rfl]
  rw [show List.range 6 = [0, 1, 2, 3, 4, 5] from rfl]
  simp only [List.map_cons, List.map_nil]
  norm_num [List.getD]

theorem numericFromData_ex :
    numericFromData .int [some 2, some 2, some 2, some 4, some 6, some 8]
      = .ok ⟨[2, 2, 4, 6, 8], [0, 2/5, 3/5, 4/5, 1], .int, 0⟩ := by
  unfold numericFromData quantileInit
  rw [show List.filterMap id [some (2:ℚ), some 2, some 2, some 4, some 6, some 8]
      = [2, 2, 2, 4, 6, 8] from rfl]
  dsimp only
  rw [show ([2, 2, 2, 4, 6, 8] : List ℚ).length = 6 from rfl, linspace_six]
  rw [if_neg (by norm_num), if_neg (by simp), if_neg (by norm_num),
    if_neg (by norm_num), if_neg (by norm_num)]
  simp only [Except.ok.injEq, QGen.mk.injEq]
  have hsort : sortQ [2, 2, 2, 4, 6, 8] = ([2, 2, 2, 4, 6, 8] : List ℚ) := rfl
  refine ⟨?_, ?_, by norm_num⟩
  · rw [hsort, maskKeep_ex]
    rfl
  · rw [hsort, maskKeep_ex]
    rfl

/-- Claim C2: fitting a quantile generator sorts the non-missing values
ascending, assigns breakpoint `i/(n-1)` to the `i`-th sorted value, and
collapses every interior run of three or more identical consecutive sorted
values to only its first and last occurrence (dropping the interior elements
and their breakpoints); in particular, fitting `[2,2,2,4,6,8]` retains values
`[2,2,4,6,8]` at breakpoints `[0, 0.4, 0.6, 0.8, 1.0]`. -/
theorem claim_C2_quantile_fit (dtype : Dtype) (data : List (Option ℚ)) (g : QGen)
    (hfit : numericFromData dtype data = .ok g) :
    (List.Sorted (· ≤ ·) g.vals ∧
      g.vals = applyMask (sortQ (data.filterMap id))
        (specMask (sortQ (data.filterMap id))) ∧
      g.bins = applyMask (specBreakpoints (data.filterMap id).length)
        (specMask (sortQ (data.filterMap id)))) ∧
    numericFromData .int [some 2, some 2, some 2, some 4, some 6, some 8]
      = .ok ⟨[2, 2, 4, 6, 8], [0, 2/5, 3/5, 4/5, 1], .int, 0⟩ := by
  refine ⟨?_, numericFromData_ex⟩
  unfold numericFromData quantileInit at hfit
  dsimp only at hfit
  split_ifs at hfit with h1 h2 h3 h4 h5
  all_goals try simp at hfit
  subst hfit
  have hs : List.Sorted (· ≤ ·) (sortQ (data.filterMap id)) :=
    List.sorted_insertionSort _ _
  refine ⟨?_, ?_, ?_⟩
  · exact List.Pairwise.sublist (applyMask_sublist _ _) hs
  · rw [maskKeep_eq_specMask hs]
  · rw [maskKeep_eq_specMask hs, linspace_eq_specBreakpoints]

/-- Witness for claim C2 at the concrete input `[2,2,2,4,6,8]`. -/
theorem claim_C2_quantile_fit_witness :
    numericFromData .int [some 2, some 2, some 2, some 4, some 6, some 8]
      = .ok ⟨[2, 2, 4, 6, 8], [0, 2/5, 3/5, 4/5, 1], .int, 0⟩ ∧
    List.Sorted (· ≤ ·) (QGen.mk [2, 2, 4, 6, 8] [0, 2/5, 3/5, 4/5, 1] .int 0).vals :=
  ⟨numericFromData_ex,
    (claim_C2_quantile_fit .int [some 2, some 2, some 2, some 4, some 6, some 8]
      ⟨[2, 2, 4, 6, 8], [0, 2/5, 3/5, 4/5, 1], .int, 0⟩ numericFromData_ex).1.1⟩

/-! ### Claim C3: Numeric generation and the fitted gcd -/

/-- numpy `astype` cast of a float value to a numeric dtype: the C cast to a
machine integer truncates toward zero; casting to float keeps the value. -/
def astypeNum (d : Dtype) (q : ℚ) : ℚ :=
  match d with
  | .int => (Int.tdiv q.num (q.den : ℤ) : ℚ)
  | _ => q

/-- One generated value of `Numeric`: `QuantileGenerator._make` interpolates at
the uniform draw `p` and casts to the generator dtype, `Numeric._make` wraps
the result in `helper.roundx(..., x = self.precision)` with
`precision = helper.gcd(self.vals)`, and `Generator.make` casts to the dtype
once more. -/
def numericMakeVal (g : QGen) (p : ℚ) : ℚ :=
  astypeNum g.dtype (roundxQ (astypeNum g.dtype (interpQ p g.bins g.vals)) (gcdQ g.vals))

theorem numberPrecisionGo_le {a : List ℚ} {m : ℤ} (hm : ∀ q ∈ a, ExactAt q m) :
    ∀ (fuel : ℕ) (d : ℤ), d ≤ m → m ≤ d + fuel → numberPrecisionGo a d fuel ≤ m := by
  intro fuel
  induction fuel with
  | zero =>
    intro d hdm hmd
    unfold numberPrecisionGo
    exact hdm
  | succ n ih =>
    intro d hdm hmd
    unfold numberPrecisionGo
    by_cases hc : a.any (fun q => decide (¬ q = aroundQ q d)) = true
    · rw [if_pos hc]
      rcases List.any_eq_true.mp hc with ⟨p, hp, hpd⟩
      have hne : ¬ p = aroundQ p d := by simpa using hpd
      have hdm' : d + 1 ≤ m := by
        rcases eq_or_lt_of_le hdm with heq | hlt
        · exact absurd (eq_around_of_exactAt (heq ▸ hm p hp)) hne
        · omega
      exact ih (d + 1) hdm' (by omega)
    · rw [if_neg hc]
      exact hdm

theorem numberPrecision_le_of_exact {a : List ℚ} {m : ℤ}
    (hm : ∀ q ∈ a, ExactAt q m) (h16 : m ≤ 16)
    (hd : -(Int.clog 10 |maxList a|) ≤ m) : numberPrecision a ≤ m := by
  unfold numberPrecision
  exact numberPrecisionGo_le hm _ _ hd (by omega)

theorem foldl_max_mem (xs : List ℚ) : ∀ x : ℚ, xs.foldl max x = x ∨ xs.foldl max x ∈ xs := by
  induction xs with
  | nil => intro x; left; rfl
  | cons y ys ih =>
    intro x
    simp only [List.foldl_cons]
    rcases ih (max x y) with h | h
    · rw [h]
      rcases max_choice x y with hm | hm
      · left; exact hm
      · right; rw [hm]; exact List.mem_cons_self y ys
    · right; exact List.mem_cons_of_mem y h

theorem maxList_mem {a : List ℚ} (hne : a ≠ []) : maxList a ∈ a := by
  match a with
  | [] => exact absurd rfl hne
  | x :: xs =>
    unfold maxList
    simp only [List.headD_cons, List.foldl_cons, max_self]
    rcases foldl_max_mem xs x with h | h
    · rw [h]; exact List.mem_cons_self x xs
    · exact List.mem_cons_of_mem x h

/-- The fitted gcd of `helper.gcd` is nonzero and exact at the detected
precision whenever the values are (no sign assumption: a nonzero maximum
suffices, since its integer representative is then nonzero). -/
theorem gcdQ_exact_ne_zero {a : List ℚ} (hne : a ≠ []) (hmax : maxList a ≠ 0)
    (hex : ∀ q ∈ a, ExactAt q (numberPrecision a)) :
    gcdQ a ≠ 0 ∧ ExactAt (gcdQ a) (numberPrecision a) := by
  unfold gcdQ
  set n := numberPrecision a with hn
  have h10 : (0:ℚ) < (10 : ℚ) ^ n := zpow_pos (by norm_num) n
  have hG : gcdList (a.map (fun q => rhe (q * (10 : ℚ) ^ n))) ≠ 0 := by
    refine gcdList_ne_zero ⟨rhe (maxList a * (10 : ℚ) ^ n), ?_, ?_⟩
    · exact List.mem_map.mpr ⟨maxList a, maxList_mem hne, rfl⟩
    · obtain ⟨k, hk⟩ := hex (maxList a) (maxList_mem hne)
      rw [hk, rhe_intCast]
      intro h0
      rw [h0] at hk
      exact mul_ne_zero hmax (ne_of_gt h10) (by simpa using hk)
  set G := gcdList (a.map (fun q => rhe (q * (10 : ℚ) ^ n))) with hGdef
  have hexact : ExactAt ((G : ℚ) / (10 : ℚ) ^ n) n := by
    refine ⟨G, ?_⟩
    field_simp
  rw [aroundQ_of_exact hexact]
  refine ⟨div_ne_zero (by exact_mod_cast hG) (ne_of_gt h10), ⟨G, ?_⟩⟩
  field_simp

/-- A nonzero value that is exact at `m` decimals has absolute value at least
`10^(-m)`, so the starting index of the `number_precision` scan is at
most `m`. -/
theorem neg_clog_abs_le_of_exact {q : ℚ} {m : ℤ} (hq : q ≠ 0)
    (h : ExactAt q m) : -(Int.clog 10 |q|) ≤ m := by
  obtain ⟨k, hk⟩ := h
  have h10 : (0:ℚ) < (10 : ℚ) ^ m := zpow_pos (by norm_num) m
  have hk0 : k ≠ 0 := by
    intro h0
    rw [h0] at hk
    exact mul_ne_zero hq (ne_of_gt h10) (by simpa using hk)
  have habs : |q| * (10 : ℚ) ^ m = |(k : ℚ)| := by
    rw [← abs_of_pos h10, ← abs_mul, hk]
  have h1 : (1 : ℚ) ≤ |(k : ℚ)| := by
    have := Int.one_le_abs hk0
    exact_mod_cast this
  have hq' : |q| = |(k : ℚ)| / (10 : ℚ) ^ m := by
    rw [eq_div_iff (ne_of_gt h10)]
    exact habs
  have h2 : (10 : ℚ) ^ (-m) ≤ |q| := by
    rw [zpow_neg, inv_eq_one_div, hq']
    exact (div_le_div_right h10).mpr h1
  have h3 : Int.clog 10 ((10 : ℚ) ^ (-m)) ≤ Int.clog 10 |q| :=
    Int.clog_mono_right (zpow_pos (by norm_num) _) h2
  have hz : Int.clog 10 ((10 : ℚ) ^ (-m)) = -m := by
    rw [show (10 : ℚ) = ((10 : ℕ) : ℚ) by norm_num]
    exact Int.clog_zpow (by norm_num) (-m)
  omega

theorem exactAt_zero_of_int {q : ℚ} (z : ℤ) (hz : q = (z : ℚ)) : ExactAt q 0 :=
  ⟨z, by rw [hz, zpow_zero, mul_one]⟩

theorem intValued_of_exactAt_nonpos {q : ℚ} {n : ℤ} (hex : ExactAt q n)
    (hn : n ≤ 0) : ∃ z : ℤ, q = (z : ℚ) := by
  obtain ⟨k, hk⟩ := hex
  refine ⟨k * 10 ^ (-n).toNat, ?_⟩
  have h1 : ((10 : ℚ) ^ n)⁻¹ = (10 : ℚ) ^ (-n).toNat := by
    rw [← zpow_neg, ← zpow_natCast]
    congr 1
    omega
  have h10 : (10 : ℚ) ^ n ≠ 0 := zpow_ne_zero n (by norm_num)
  have hq : q = (k : ℚ) * ((10 : ℚ) ^ n)⁻¹ := by
    field_simp
    exact hk
  rw [hq, h1]
  push_cast
  ring

/-- For a nonempty list of integer-valued rationals with nonzero maximum the
fitted gcd of `helper.gcd` is itself an integer. -/
theorem gcdQ_intValued {a : List ℚ} (hne : a ≠ []) (hmax : maxList a ≠ 0)
    (hiv : ∀ q ∈ a, ∃ z : ℤ, q = (z : ℚ)) :
    ∃ z : ℤ, gcdQ a = (z : ℚ) := by
  have hex0 : ∀ q ∈ a, ExactAt q 0 := fun q hq => by
    obtain ⟨z, hz⟩ := hiv q hq
    exact exactAt_zero_of_int z hz
  have hmax1 : (1 : ℚ) ≤ |maxList a| := by
    obtain ⟨z, hz⟩ := hiv _ (maxList_mem hne)
    have hz0 : z ≠ 0 := by
      intro h0
      exact hmax (by rw [hz, h0]; norm_num)
    rw [hz, ← Int.cast_abs]
    exact_mod_cast Int.one_le_abs hz0
  have hclog : (0 : ℤ) ≤ Int.clog 10 |maxList a| := by
    have := Int.clog_mono_right (b := 10) (by norm_num) hmax1
    rwa [Int.clog_one_right] at this
  have hle : numberPrecision a ≤ 0 :=
    numberPrecision_le_of_exact hex0 (by norm_num) (by omega)
  have hexn : ∀ q ∈ a, ExactAt q (numberPrecision a) :=
    numberPrecision_exact hex0 (by omega)
  obtain ⟨-, hgex⟩ := gcdQ_exact_ne_zero hne hmax hexn
  exact intValued_of_exactAt_nonpos hgex hle

theorem astypeNum_int_intCast (z : ℤ) : astypeNum .int ((z : ℚ)) = (z : ℚ) := by
  unfold astypeNum
  rw [Rat.num_intCast, Rat.den_intCast]
  norm_num [Int.tdiv_one]

theorem notExactAt_of_pos_lt_one {q : ℚ} {d : ℤ} (h0 : 0 < q * (10 : ℚ) ^ d)
    (h1 : q * (10 : ℚ) ^ d < 1) : ¬ ExactAt q d := by
  rintro ⟨k, hk⟩
  rw [hk] at h0 h1
  have hk0 : 0 < k := by exact_mod_cast h0
  have hk1 : k < 1 := by exact_mod_cast h1
  omega

theorem numberPrecision_eq_zero_of {a : List ℚ} (hne : a ≠ [])
    (hmax : maxList a ≠ 0) (hiv : ∀ q ∈ a, ∃ z : ℤ, q = (z : ℚ))
    {w : ℚ} (hw : w ∈ a) (hw0 : 0 < w) (hw10 : w < 10) :
    numberPrecision a = 0 := by
  have hex0 : ∀ q ∈ a, ExactAt q 0 := fun q hq => by
    obtain ⟨z, hz⟩ := hiv q hq
    exact exactAt_zero_of_int z hz
  have hmax1 : (1 : ℚ) ≤ |maxList a| := by
    obtain ⟨z, hz⟩ := hiv _ (maxList_mem hne)
    have hz0 : z ≠ 0 := by
      intro h0
      exact hmax (by rw [hz, h0]; norm_num)
    rw [hz, ← Int.cast_abs]
    exact_mod_cast Int.one_le_abs hz0
  have hclog : (0 : ℤ) ≤ Int.clog 10 |maxList a| := by
    have := Int.clog_mono_right (b := 10) (by norm_num) hmax1
    rwa [Int.clog_one_right] at this
  have hle : numberPrecision a ≤ 0 :=
    numberPrecision_le_of_exact hex0 (by norm_num) (by omega)
  have hexn := numberPrecision_exact hex0 (by omega) w hw
  by_contra hne0
  have hn1 : numberPrecision a ≤ -1 := by omega
  refine notExactAt_of_pos_lt_one ?_ ?_ hexn
  · exact mul_pos hw0 (zpow_pos (by norm_num) _)
  · have h1 : (10 : ℚ) ^ numberPrecision a ≤ (10 : ℚ) ^ (-1 : ℤ) :=
      zpow_le_zpow_right₀ (by norm_num) hn1
    have h2 : w * (10 : ℚ) ^ numberPrecision a ≤ w * (10 : ℚ) ^ (-1 : ℤ) :=
      mul_le_mul_of_nonneg_left h1 (le_of_lt hw0)
    have h3 : w * (10 : ℚ) ^ (-1 : ℤ) < 1 := by
      rw [zpow_neg, zpow_one]
      rw [show (10 : ℚ)⁻¹ = 1 / 10 by norm_num]
      linarith
    linarith

theorem maxList_ne_zero_of_all {a : List ℚ} (hne : a ≠ [])
    (h : ∀ q ∈ a, q ≠ 0) : maxList a ≠ 0 :=
  h _ (maxList_mem hne)

theorem numberPrecision_ex1 : numberPrecision [2, 2, 4, 6, 8] = 0 := by
  refine numberPrecision_eq_zero_of (by simp)
    (maxList_ne_zero_of_all (by simp) (by intro q hq; fin_cases hq <;> norm_num)) ?_
    (show (2 : ℚ) ∈ [2, 2, 4, 6, 8] by simp) (by norm_num) (by norm_num)
  · intro q hq
    fin_cases hq
    · exact ⟨2, by norm_num⟩
    · exact ⟨2, by norm_num⟩
    · exact ⟨4, by norm_num⟩
    · exact ⟨6, by norm_num⟩
    · exact ⟨8, by norm_num⟩

theorem numberPrecision_ex2 : numberPrecision [5, 10, 15] = 0 := by
  refine numberPrecision_eq_zero_of (by simp)
    (maxList_ne_zero_of_all (by simp) (by intro q hq; fin_cases hq <;> norm_num)) ?_
    (show (5 : ℚ) ∈ [5, 10, 15] by simp) (by norm_num) (by norm_num)
  · intro q hq
    fin_cases hq
    · exact ⟨5, by norm_num⟩
    · exact ⟨10, by norm_num⟩
    · exact ⟨15, by norm_num⟩

theorem rhe_intValued {q : ℚ} (z : ℤ) (h : q = (z : ℚ)) : rhe q = z :=
  h ▸ rhe_intCast z

theorem gcdQ_ex1 : gcdQ [2, 2, 4, 6, 8] = 2 := by
  unfold gcdQ
  rw [numberPrecision_ex1]
  dsimp only
  have hmap : List.map (fun q => rhe (q * (10 : ℚ) ^ (0 : ℤ))) [2, 2, 4, 6, 8]
      = [2, 2, 4, 6, 8] := by
    simp only [List.map_cons, List.map_nil, zpow_zero, mul_one]
    rw [rhe_intValued 2 (by norm_num), rhe_intValued 4 (by norm_num),
      rhe_intValued 6 (by norm_num), rhe_intValued 8 (by norm_num)]
  rw [hmap]
  rw [show gcdList [2, 2, 4, 6, 8] = 2 by decide]
  rw [show ((2 : ℤ) : ℚ) / (10 : ℚ) ^ (0 : ℤ) = ((2 : ℤ) : ℚ) by norm_num]
  rw [aroundQ_of_exact ⟨2, by norm_num⟩]
  norm_num

theorem gcdQ_ex2 : gcdQ [5, 10, 15] = 5 := by
  unfold gcdQ
  rw [numberPrecision_ex2]
  dsimp only
  have hmap : List.map (fun q => rhe (q * (10 : ℚ) ^ (0 : ℤ))) [5, 10, 15]
      = [5, 10, 15] := by
    simp only [List.map_cons, List.map_nil, zpow_zero, mul_one]
    rw [rhe_intValued 5 (by norm_num), rhe_intValued 10 (by norm_num),
      rhe_intValued 15 (by norm_num)]
  rw [hmap]
  rw [show gcdList [5, 10, 15] = 5 by decide]
  rw [show ((5 : ℤ) : ℚ) / (10 : ℚ) ^ (0 : ℤ) = ((5 : ℤ) : ℚ) by norm_num]
  rw [aroundQ_of_exact ⟨5, by norm_num⟩]
  norm_num

theorem numberPrecision_ex3 : numberPrecision [-4, 6] = 0 := by
  refine numberPrecision_eq_zero_of (by simp)
    (maxList_ne_zero_of_all (by simp) (by intro q hq; fin_cases hq <;> norm_num)) ?_
    (show (6 : ℚ) ∈ [-4, 6] by simp) (by norm_num) (by norm_num)
  · intro q hq
    fin_cases hq
    · exact ⟨-4, by norm_num⟩
    · exact ⟨6, by norm_num⟩

theorem gcdQ_ex3 : gcdQ [-4, 6] = 2 := by
  unfold gcdQ
  rw [numberPrecision_ex3]
  dsimp only
  have hmap : List.map (fun q => rhe (q * (10 : ℚ) ^ (0 : ℤ))) [-4, 6]
      = [-4, 6] := by
    simp only [List.map_cons, List.map_nil, zpow_zero, mul_one]
    rw [rhe_intValued (-4) (by norm_num), rhe_intValued 6 (by norm_num)]
  rw [hmap]
  rw [show gcdList [-4, 6] = 2 by decide]
  rw [show ((2 : ℤ) : ℚ) / (10 : ℚ) ^ (0 : ℤ) = ((2 : ℤ) : ℚ) by norm_num]
  rw [aroundQ_of_exact ⟨2, by norm_num⟩]
  norm_num

theorem astypeNum_of_ne_int {d : Dtype} (hd : d ≠ .int) (q : ℚ) :
    astypeNum d q = q := by
  cases d <;> first | rfl | exact absurd rfl hd

/-! ### Claim C4: datetime precision detection and truncation

numpy `datetime64` values are modelled by nanosecond ticks since the epoch
1970-01-01.  Casting to a coarser unit and back (which is what both the
comparison `a != a.astype("datetime64[f]")` in `helper.datetime_precision`
and `Datetime._make`'s final `astype` amount to) truncates: for the fixed
size units (`ms` … `D`) by flooring to a multiple of the unit size, for `M`
and `Y` by the calendar month/year start.  The proleptic-Gregorian
conversions between day counts and civil dates model numpy's calendar
arithmetic. -/

/-- Days since 1970-01-01 of the civil date `(y, mo, d)`, proleptic
Gregorian calendar (models numpy's `days_from_ymd`). -/
def daysFromCivil (y mo d : ℤ) : ℤ :=
  let y' := y - (if mo ≤ 2 then 1 else 0)
  let era := y' / 400
  let yoe := y' - era * 400
  let mp := mo + (if 2 < mo then -3 else 9)
  let doy := (153 * mp + 2) / 5 + d - 1
  let doe := 36524 * (yoe / 100) + 1461 * (yoe % 100 / 4) + 365 * (yoe % 4) + doy
  era * 146097 + doe - 719468

/-- Civil date `(y, mo, d)` of a day count since 1970-01-01, proleptic
Gregorian calendar (models numpy's `days_to_ymd`). -/
def civilFromDays (z : ℤ) : ℤ × ℤ × ℤ :=
  let z' := z + 719468
  let era := z' / 146097
  let doe := z' - era * 146097
  let n100 := doe / 36524 - doe / 146096
  let r100 := doe - 36524 * n100
  let n4 := r100 / 1461
  let r4 := r100 % 1461
  let n1 := r4 / 365 - r4 / 1460
  let doy := r4 - 365 * n1
  let yoe := 100 * n100 + 4 * n4 + n1
  let mp := (5 * doy + 2) / 153
  let d := doy - (153 * mp + 2) / 5 + 1
  let mo := mp + (if mp < 10 then 3 else -9)
  (era * 400 + yoe + (if mo ≤ 2 then 1 else 0), mo, d)

theorem digitRec100 (n100 n4 n1 doy : ℤ) (ha0 : 0 ≤ n100) (ha1 : n100 ≤ 3)
    (hb0 : 0 ≤ n4) (hb1 : n4 ≤ 24) (hc0 : 0 ≤ n1) (hc1 : n1 ≤ 3)
    (hd0 : 0 ≤ doy) (hd1 : doy ≤ 337) :
    (36524 * n100 + 1461 * n4 + 365 * n1 + doy) / 36524 -
      (36524 * n100 + 1461 * n4 + 365 * n1 + doy) / 146096 = n100 := by
  have e1 : 36524 * n100 + 1461 * n4 + 365 * n1 + doy
      = (1461 * n4 + 365 * n1 + doy) + n100 * 36524 := by ring
  rw [e1, Int.add_mul_ediv_right _ _ (by norm_num),
    Int.ediv_eq_zero_of_lt (by omega)
      (by omega : 1461 * n4 + 365 * n1 + doy < 36524),
    Int.ediv_eq_zero_of_lt (by omega)
      (by omega : (1461 * n4 + 365 * n1 + doy) + n100 * 36524 < 146096)]
  ring

theorem digitRec4 (n4 n1 doy : ℤ)
    (hb0 : 0 ≤ n4) (hb1 : n4 ≤ 24) (hc0 : 0 ≤ n1) (hc1 : n1 ≤ 3)
    (hd0 : 0 ≤ doy) (hd1 : doy ≤ 337) :
    (1461 * n4 + 365 * n1 + doy) / 1461 = n4 := by omega

theorem digitRec4m (n4 n1 doy : ℤ)
    (hb0 : 0 ≤ n4) (hb1 : n4 ≤ 24) (hc0 : 0 ≤ n1) (hc1 : n1 ≤ 3)
    (hd0 : 0 ≤ doy) (hd1 : doy ≤ 337) :
    (1461 * n4 + 365 * n1 + doy) % 1461 = 365 * n1 + doy := by omega

theorem digitRec1 (n1 doy : ℤ) (hc0 : 0 ≤ n1) (hc1 : n1 ≤ 3)
    (hd0 : 0 ≤ doy) (hd1 : doy ≤ 337) :
    (365 * n1 + doy) / 365 - (365 * n1 + doy) / 1460 = n1 := by omega

theorem civil_month_range (z : ℤ) :
    1 ≤ (civilFromDays z).2.1 ∧ (civilFromDays z).2.1 ≤ 12 := by
  unfold civilFromDays
  dsimp only
  split_ifs <;> omega

set_option maxHeartbeats 2000000 in
theorem civil_roundtrip1 (y mo : ℤ) (h1 : 1 ≤ mo) (h2 : mo ≤ 12) :
    civilFromDays (daysFromCivil y mo 1) = (y, mo, 1) := by
  have key : ∀ era n100 n4 n1 mp : ℤ, 0 ≤ n100 → n100 ≤ 3 → 0 ≤ n4 → n4 ≤ 24 →
      0 ≤ n1 → n1 ≤ 3 → 0 ≤ mp → mp ≤ 11 →
      era * 400 + (100 * n100 + 4 * n4 + n1) = y - (if mo ≤ 2 then 1 else 0) →
      mp = mo + (if 2 < mo then -3 else 9) →
      civilFromDays (era * 146097 +
        (36524 * n100 + 1461 * n4 + 365 * n1 + (153 * mp + 2) / 5) - 719468) =
        (y, mo, 1) := by
    intro era n100 n4 n1 mp ha0 ha1 hb0 hb1 hc0 hc1 hm0 hm1 hrel hmp
    have hdoy1 : 0 ≤ (153 * mp + 2) / 5 := by omega
    have hdoy2 : (153 * mp + 2) / 5 ≤ 337 := by omega
    have hmrec : (5 * ((153 * mp + 2) / 5) + 2) / 153 = mp := by omega
    generalize hdoy : (153 * mp + 2) / 5 = doy at hdoy1 hdoy2 hmrec ⊢
    unfold civilFromDays
    dsimp only
    have hera : (era * 146097 +
        (36524 * n100 + 1461 * n4 + 365 * n1 + doy) - 719468 + 719468) / 146097
        = era := by clear hrel hmrec hmp; omega
    rw [hera]
    have hdoe : era * 146097 + (36524 * n100 + 1461 * n4 + 365 * n1 + doy)
        - 719468 + 719468 - era * 146097
        = 36524 * n100 + 1461 * n4 + 365 * n1 + doy := by ring
    rw [hdoe]
    rw [digitRec100 n100 n4 n1 doy ha0 ha1 hb0 hb1 hc0 hc1 hdoy1 hdoy2]
    have hr100 : 36524 * n100 + 1461 * n4 + 365 * n1 + doy - 36524 * n100
        = 1461 * n4 + 365 * n1 + doy := by ring
    rw [hr100]
    rw [digitRec4 n4 n1 doy hb0 hb1 hc0 hc1 hdoy1 hdoy2,
        digitRec4m n4 n1 doy hb0 hb1 hc0 hc1 hdoy1 hdoy2]
    rw [digitRec1 n1 doy hc0 hc1 hdoy1 hdoy2]
    have hr1 : 365 * n1 + doy - 365 * n1 = doy := by ring
    rw [hr1, hmrec, hdoy]
    split_ifs <;> refine Prod.ext ?_ (Prod.ext ?_ ?_) <;> dsimp only <;> omega
  have h := key ((y - (if mo ≤ 2 then 1 else 0)) / 400)
      ((y - (if mo ≤ 2 then 1 else 0) - (y - (if mo ≤ 2 then 1 else 0)) / 400 * 400) / 100)
      ((y - (if mo ≤ 2 then 1 else 0) - (y - (if mo ≤ 2 then 1 else 0)) / 400 * 400) % 100 / 4)
      ((y - (if mo ≤ 2 then 1 else 0) - (y - (if mo ≤ 2 then 1 else 0)) / 400 * 400) % 4)
      (mo + (if 2 < mo then -3 else 9))
      (by omega) (by omega) (by omega) (by omega) (by omega) (by omega)
      (by split_ifs <;> omega) (by split_ifs <;> omega) (by omega) rfl
  unfold daysFromCivil
  dsimp only
  convert h using 2
  ring

/-- The datetime64 units scanned by `helper.datetime_precision`. -/
inductive TUnit
  | ns | ms | s | m | h | D | M | Y
deriving DecidableEq

/-- Nanoseconds per day. -/
def dayNs : ℤ := 86400000000000

/-- Tick count of a fixed-size unit in nanoseconds (the calendar units `M`
and `Y` have no fixed size; the entry is unused for them). -/
def unitSize : TUnit → ℤ
  | .ns => 1
  | .ms => 1000000
  | .s => 1000000000
  | .m => 60000000000
  | .h => 3600000000000
  | .D => dayNs
  | .M => dayNs
  | .Y => dayNs

/-- The first day of the calendar month containing day `z`. -/
def monthStart (z : ℤ) : ℤ :=
  daysFromCivil (civilFromDays z).1 (civilFromDays z).2.1 1

/-- The first day of the calendar year containing day `z`. -/
def yearStart (z : ℤ) : ℤ := daysFromCivil (civilFromDays z).1 1 1

/-- Casting a nanosecond tick value to unit `u` and back: flooring to a
multiple of the unit size for fixed-size units, the calendar month/year
start for `M`/`Y`.  Models numpy's `astype("datetime64[u]")` composed with
the implicit upcast used when comparing or storing the value. -/
def truncTo (u : TUnit) (x : ℤ) : ℤ :=
  match u with
  | .M => monthStart (x / dayNs) * dayNs
  | .Y => yearStart (x / dayNs) * dayNs
  | u => x / unitSize u * unitSize u

/-- Scan order of `helper.datetime_precision`. -/
def unitScan : List TUnit := [.ms, .s, .m, .h, .D, .M, .Y]

/-- The scan loop of `helper.datetime_precision`: accept ever coarser units
while no value is changed by casting, stop at the first unit that alters
some value. -/
def datetimePrecisionGo (a : List ℤ) : TUnit → List TUnit → TUnit
  | freq, [] => freq
  | freq, f :: fs =>
    if a.any (fun v => decide (¬ truncTo f v = v)) then freq
    else datetimePrecisionGo a f fs

/-- `helper.datetime_precision(a)` on tick values. -/
def datetimePrecision (a : List ℤ) : TUnit :=
  datetimePrecisionGo a .ns unitScan

/-- One generated value of `Datetime._make`: the interpolated tick value `x`
is cast to `datetime64` of the detected precision. -/
def datetimeMakeVal (vals : List ℤ) (x : ℤ) : ℤ :=
  truncTo (datetimePrecision vals) x

/-- Position of a unit in the fine-to-coarse order. -/
def unitIdx : TUnit → ℕ
  | .ns => 0
  | .ms => 1
  | .s => 2
  | .m => 3
  | .h => 4
  | .D => 5
  | .M => 6
  | .Y => 7

theorem monthStart_monthStart (z : ℤ) : monthStart (monthStart z) = monthStart z := by
  unfold monthStart
  obtain ⟨h1, h2⟩ := civil_month_range z
  rw [civil_roundtrip1 (civilFromDays z).1 (civilFromDays z).2.1 h1 h2]

theorem yearStart_yearStart (z : ℤ) : yearStart (yearStart z) = yearStart z := by
  unfold yearStart
  rw [civil_roundtrip1 (civilFromDays z).1 1 (by norm_num) (by norm_num)]

theorem monthStart_yearStart (z : ℤ) : monthStart (yearStart z) = yearStart z := by
  unfold monthStart yearStart
  rw [civil_roundtrip1 (civilFromDays z).1 1 (by norm_num) (by norm_num)]

theorem dayNs_pos : (0 : ℤ) < dayNs := by norm_num [dayNs]

theorem truncTo_M_idem (x : ℤ) : truncTo .M (truncTo .M x) = truncTo .M x := by
  show monthStart (monthStart (x / dayNs) * dayNs / dayNs) * dayNs
      = monthStart (x / dayNs) * dayNs
  rw [Int.mul_ediv_cancel _ (ne_of_gt dayNs_pos), monthStart_monthStart]

theorem truncTo_Y_idem (x : ℤ) : truncTo .Y (truncTo .Y x) = truncTo .Y x := by
  show yearStart (yearStart (x / dayNs) * dayNs / dayNs) * dayNs
      = yearStart (x / dayNs) * dayNs
  rw [Int.mul_ediv_cancel _ (ne_of_gt dayNs_pos), yearStart_yearStart]

theorem truncTo_M_of_Y {x : ℤ} (h : truncTo .Y x = x) : truncTo .M x = x := by
  have hw : x / dayNs = yearStart (x / dayNs) := by
    conv_lhs => rw [← h]
    show yearStart (x / dayNs) * dayNs / dayNs = _
    rw [Int.mul_ediv_cancel _ (ne_of_gt dayNs_pos)]
  show monthStart (x / dayNs) * dayNs = x
  rw [hw, monthStart_yearStart]
  exact h

theorem dvd_of_truncTo_M {x : ℤ} (h : truncTo .M x = x) : dayNs ∣ x := by
  have h' : monthStart (x / dayNs) * dayNs = x := h
  rw [mul_comm] at h'
  exact ⟨monthStart (x / dayNs), h'.symm⟩

theorem dvd_of_truncTo_Y {x : ℤ} (h : truncTo .Y x = x) : dayNs ∣ x := by
  have h' : yearStart (x / dayNs) * dayNs = x := h
  rw [mul_comm] at h'
  exact ⟨yearStart (x / dayNs), h'.symm⟩

theorem truncTo_eq_iff_dvd {u : TUnit} (hu : unitIdx u ≤ 5) (x : ℤ) :
    truncTo u x = x ↔ unitSize u ∣ x := by
  have hsz : 0 < unitSize u := by
    cases u <;> simp [unitSize, dayNs] <;> norm_num
  have hshape : truncTo u x = x / unitSize u * unitSize u := by
    cases u <;> first | rfl | (exact absurd hu (by simp [unitIdx]))
  rw [hshape]
  constructor
  · intro h
    exact ⟨x / unitSize u, by rw [mul_comm]; exact h.symm⟩
  · intro h
    rw [Int.ediv_mul_cancel h]

theorem truncTo_idem : ∀ (u : TUnit) (x : ℤ), truncTo u (truncTo u x) = truncTo u x := by
  intro u x
  cases u
  case M => exact truncTo_M_idem x
  case Y => exact truncTo_Y_idem x
  all_goals exact (truncTo_eq_iff_dvd (by decide) _).mpr (dvd_mul_left _ _)

theorem truncTo_down (u v : TUnit) (x : ℤ) (huv : unitIdx u ≤ unitIdx v)
    (h : truncTo v x = x) : truncTo u x = x := by
  by_cases hv5 : unitIdx v ≤ 5
  · have hu5 : unitIdx u ≤ 5 := le_trans huv hv5
    have hdvd : unitSize v ∣ x := (truncTo_eq_iff_dvd hv5 x).mp h
    have hsz : unitSize u ∣ unitSize v := by
      cases u <;> cases v <;> simp_all [unitIdx] <;> norm_num [unitSize, dayNs]
    exact (truncTo_eq_iff_dvd hu5 x).mpr (hsz.trans hdvd)
  · have hM : truncTo .M x = x := by
      cases v
      case M => exact h
      case Y => exact truncTo_M_of_Y h
      all_goals exact absurd (by decide) hv5
    rcases eq_or_ne u .Y with huY | huY
    · subst huY
      cases v <;> simp_all [unitIdx]
    rcases eq_or_ne u .M with huM | huM
    · subst huM
      exact hM
    · have hu5 : unitIdx u ≤ 5 := by
        cases u <;> first | decide | exact absurd rfl huY | exact absurd rfl huM
      have hday : dayNs ∣ x := dvd_of_truncTo_M hM
      have hsz : unitSize u ∣ dayNs := by
        cases u <;> norm_num [unitSize, dayNs]
      exact (truncTo_eq_iff_dvd hu5 x).mpr (hsz.trans hday)

theorem datetimePrecisionGo_fixed (a : List ℤ) :
    ∀ (rest : List TUnit) (freq : TUnit), (∀ v ∈ a, truncTo freq v = v) →
      ∀ v ∈ a, truncTo (datetimePrecisionGo a freq rest) v = v := by
  intro rest
  induction rest with
  | nil =>
    intro freq h v hv
    unfold datetimePrecisionGo
    exact h v hv
  | cons f fs ih =>
    intro freq h v hv
    unfold datetimePrecisionGo
    by_cases hc : a.any (fun w => decide (¬ truncTo f w = w)) = true
    · rw [if_pos hc]
      exact h v hv
    · rw [if_neg hc]
      refine ih f ?_ v hv
      intro w hw
      by_contra hne
      exact hc (List.any_eq_true.mpr ⟨w, hw, by simpa using hne⟩)

theorem datetimePrecision_fixed (a : List ℤ) :
    ∀ v ∈ a, truncTo (datetimePrecision a) v = v :=
  datetimePrecisionGo_fixed a unitScan .ns
    (fun v _ => by show v / 1 * 1 = v; simp)

/-- The unit immediately coarser than `u` in the scan order. -/
def nextU : TUnit → TUnit
  | .ns => .ms
  | .ms => .s
  | .s => .m
  | .m => .h
  | .h => .D
  | .D => .M
  | .M => .Y
  | .Y => .Y

theorem unitIdx_nextU {u : TUnit} (h : u ≠ .Y) :
    unitIdx (nextU u) = unitIdx u + 1 := by
  cases u <;> first | rfl | exact absurd rfl h

theorem datetimePrecision_break (a : List ℤ) (hne : datetimePrecision a ≠ .Y) :
    ∃ v ∈ a, truncTo (nextU (datetimePrecision a)) v ≠ v := by
  unfold datetimePrecision unitScan at hne ⊢
  simp only [datetimePrecisionGo] at hne ⊢
  split_ifs at hne ⊢ with h1 h2 h3 h4 h5 h6 h7
  · rcases List.any_eq_true.mp h1 with ⟨v, hv, hd⟩
    exact ⟨v, hv, by simpa using hd⟩
  · rcases List.any_eq_true.mp h2 with ⟨v, hv, hd⟩
    exact ⟨v, hv, by simpa using hd⟩
  · rcases List.any_eq_true.mp h3 with ⟨v, hv, hd⟩
    exact ⟨v, hv, by simpa using hd⟩
  · rcases List.any_eq_true.mp h4 with ⟨v, hv, hd⟩
    exact ⟨v, hv, by simpa using hd⟩
  · rcases List.any_eq_true.mp h5 with ⟨v, hv, hd⟩
    exact ⟨v, hv, by simpa using hd⟩
  · rcases List.any_eq_true.mp h6 with ⟨v, hv, hd⟩
    exact ⟨v, hv, by simpa using hd⟩
  · rcases List.any_eq_true.mp h7 with ⟨v, hv, hd⟩
    exact ⟨v, hv, by simpa using hd⟩
  · exact absurd rfl hne

theorem datetimePrecision_coarsest (a : List ℤ) (g : TUnit)
    (hgt : unitIdx (datetimePrecision a) < unitIdx g) :
    ∃ v ∈ a, truncTo g v ≠ v := by
  have hne : datetimePrecision a ≠ .Y := by
    intro hY
    rw [hY] at hgt
    cases g <;> simp [unitIdx] at hgt
  obtain ⟨v, hv, hd⟩ := datetimePrecision_break a hne
  refine ⟨v, hv, fun hfix => hd ?_⟩
  refine truncTo_down (nextU (datetimePrecision a)) g v ?_ hfix
  rw [unitIdx_nextU hne]
  omega

theorem datetimePrecision_ge_of_fixed (a : List ℤ) (u : TUnit)
    (hfix : ∀ v ∈ a, truncTo u v = v) :
    unitIdx u ≤ unitIdx (datetimePrecision a) := by
  by_contra hlt
  push_neg at hlt
  have hne : datetimePrecision a ≠ .Y := by
    intro hY
    rw [hY] at hlt
    cases u <;> simp [unitIdx] at hlt
  obtain ⟨v, hv, hd⟩ := datetimePrecision_break a hne
  refine hd (truncTo_down (nextU (datetimePrecision a)) u v ?_ (hfix v hv))
  rw [unitIdx_nextU hne]
  omega

/-- Claim C4: for every datetime quantile generator, generation truncates
each interpolated value to the coarsest precision level (from nanosecond up
through year) at which no fitted value's truncation differs from its
original value, so generated datetimes never have finer precision than
detected: fitting timestamps truncated at hour precision never yields
sub-hour generated values.  The four conjuncts: the detected precision
preserves every fitted value; every strictly coarser unit alters some
fitted value; the generated value is exact at the detected precision; and
if all fitted values are exact at hour precision, the generated value is
exact at hour precision. -/
theorem claim_C4_datetime_truncation (vals : List ℤ) (x : ℤ) :
    (∀ v ∈ vals, truncTo (datetimePrecision vals) v = v) ∧
    (∀ g : TUnit, unitIdx (datetimePrecision vals) < unitIdx g →
      ∃ v ∈ vals, truncTo g v ≠ v) ∧
    truncTo (datetimePrecision vals) (datetimeMakeVal vals x) = datetimeMakeVal vals x ∧
    ((∀ v ∈ vals, truncTo .h v = v) →
      truncTo .h (datetimeMakeVal vals x) = datetimeMakeVal vals x) := by
  refine ⟨datetimePrecision_fixed vals, datetimePrecision_coarsest vals, ?_, ?_⟩
  · exact truncTo_idem _ _
  · intro hfix
    refine truncTo_down .h (datetimePrecision vals) _ ?_ (truncTo_idem _ x)
    exact datetimePrecision_ge_of_fixed vals .h hfix

/-- Witness for claim C4 on hour-precision data: two timestamps that are
whole multiples of an hour but not of a day, and an arbitrary interpolated
tick value. -/
theorem claim_C4_datetime_truncation_witness :
    (∀ v ∈ [(18000000000000 : ℤ), 25200000000000], truncTo .h v = v) ∧
    truncTo .h (datetimeMakeVal [(18000000000000 : ℤ), 25200000000000] 123456789123)
      = datetimeMakeVal [(18000000000000 : ℤ), 25200000000000] 123456789123 :=
  ⟨by decide,
    (claim_C4_datetime_truncation [(18000000000000 : ℤ), 25200000000000]
      123456789123).2.2.2 (by decide)⟩

/-! ### Claim C1: the generator selector (analysis.choose_method) -/

/-- A non-missing cell value of a column (missing markers are `none` in
`List (Option Val)` columns). -/
inductive Val
  | vb (b : Bool)
  | vi (n : ℤ)
  | vf (q : ℚ)
  | vdt (t : ℤ)
  | vs (s : String)
deriving DecidableEq

/-- Python `len()` of a cell value, as used on the string values of
`choose_method`'s step for `RegExDuper`. -/
def valLen : Val → ℕ
  | .vs s => s.length
  | _ => 0

/-- A column: its numpy dtype and its cells, `none` marking NaN/NaT. -/
structure Column where
  dtype : Dtype
  entries : List (Option Val)

/-- The replication method chosen by `choose_method`, with the parameters
the `ConstantDuper` branch receives.  In the all-missing branch the code
passes `pd.unique(data)` (an array holding the missing marker); every
missing representative is modelled as `none`. -/
inductive Method
  | constant (value : Option Val) (naRate : ℚ)
  | category
  | quantFloat
  | quantInt
  | quantDatetime
  | regex
deriving DecidableEq

/-- `analysis.choose_method(data, category_threshold)`: the decision chain
of the selector.  `uniqueValues` models the non-missing part of
`pd.value_counts(data, dropna=False).index`; with exactly one distinct
value, `unique_values[0]` is that value, and
`value_counts.get(np.nan, 0) / len(data)` is the missing fraction. -/
def chooseMethod (c : Column) (t : ℚ) : Method :=
  if c.entries.length = 0 then .constant none 1
  else if c.entries.all (fun v => v.isNone) then .constant none 1
  else
    let uniqueValues := (c.entries.filterMap id).dedup
    if uniqueValues.length = 1 then
      .constant uniqueValues.head?
        ((c.entries.countP (fun v => v.isNone) : ℚ) / (c.entries.length : ℚ))
    else if c.dtype = .bool ∨
        (uniqueValues.length : ℚ) / (c.entries.length : ℚ) < t then .category
    else if c.dtype = .float then .quantFloat
    else if c.dtype = .int then .quantInt
    else if c.dtype = .datetime then .quantDatetime
    else if (c.dtype = .str ∨ c.dtype = .obj) ∧
        (uniqueValues.map valLen).dedup.length = 1 then .regex
    else .category

/-- Spec-side selector: the eight-step first-match-wins decision order of
the claim, with step 5 choosing the numeric quantile variant by dtype. -/
def specSelect (c : Column) (t : ℚ) : Method :=
  if c.entries.length = 0 then .constant none 1
  else if c.entries.all (fun v => v.isNone) then .constant none 1
  else if (c.entries.filterMap id).dedup.length = 1 then
    .constant (c.entries.filterMap id).dedup.head?
      ((c.entries.countP (fun v => v.isNone) : ℚ) / (c.entries.length : ℚ))
  else if c.dtype = .bool ∨
      ((c.entries.filterMap id).dedup.length : ℚ) / (c.entries.length : ℚ) < t then
    .category
  else if c.dtype = .float ∨ c.dtype = .int then
    (if c.dtype = .float then .quantFloat else .quantInt)
  else if c.dtype = .datetime then .quantDatetime
  else if (c.dtype = .str ∨ c.dtype = .obj) ∧
      (((c.entries.filterMap id).dedup.map valLen).dedup.length = 1) then .regex
  else .category

/-- Claim C1: the generator selector, evaluated on the full column including
missing markers, applies the eight-step first-match-wins decision order:
(1) length 0, then (2) all missing, to Constant with `na_rate = 1`; (3) one
distinct non-missing value to Constant with that value and the missing
fraction as `na_rate`; (4) boolean dtype or distinct ratio below the
threshold to Category; (5) float or integer dtype to the numeric Quantile
variant; (6) datetime dtype to the datetime Quantile; (7) text dtype with
all distinct values of identical length to Regex; (8) otherwise Category. -/
theorem claim_C1_selector_order (c : Column) (t : ℚ) :
    chooseMethod c t = specSelect c t := by
  unfold chooseMethod specSelect
  dsimp only
  split_ifs <;> simp_all

/-! ### Claim C5: regex induction (src/duper/generator/regex.py) -/

/-- `itertools.zip_longest(*char_array, fillvalue="")` after `map(list, data)`:
column `i` holds the `i`-th character of each word, `none` standing for the
empty-string fill of exhausted words (which contributes nothing to the joined
character class). -/
def transposeFill (rows : List (List Char)) : List (List (Option Char)) :=
  let n := (rows.map List.length).foldr max 0
  (List.range n).map (fun i => rows.map (fun r => r.get? i))

/-- Sorting characters ascending, modelling `np.sort` on one-character
strings. -/
def sortChars (l : List Char) : List Char := List.insertionSort (· ≤ ·) l

/-- The `replace_dict` escaping of regex metacharacters
(`"\\"` maps to four backslashes, as in the Python source's `r"\\\\"`). -/
def escapeChar (ch : Char) : List Char :=
  if ch = '.' then ['\\', '.']
  else if ch = '^' then ['\\', '^']
  else if ch = '$' then ['\\', '$']
  else if ch = '*' then ['\\', '*']
  else if ch = '+' then ['\\', '+']
  else if ch = '-' then ['\\', '-']
  else if ch = '?' then ['\\', '?']
  else if ch = '(' then ['\\', '(']
  else if ch = ')' then ['\\', ')']
  else if ch = '[' then ['\\', '[']
  else if ch = ']' then ['\\', ']']
  else if ch = '\x7b' then ['\\', '\x7b']
  else if ch = '\x7d' then ['\\', '\x7d']
  else if ch = '\\' then ['\\', '\\', '\\', '\\']
  else if ch = '|' then ['\\', '|']
  else if ch = '/' then ['\\', '/']
  else [ch]

/-- `Regex._train_regex(data)`: position by position, collect the distinct
characters, sort them, escape metacharacters and emit one bracketed
character class per position. -/
def trainRegex (data : List (List Char)) : String :=
  let cols := transposeFill data
  String.mk (cols.foldr (fun col acc =>
    '[' :: ((sortChars (col.filterMap id).dedup).flatMap escapeChar ++ (']' :: acc))) [])

/-- Fuelled scanner for Python `str.replace`: replace every non-overlapping
occurrence of `pat` (nonempty here) left to right, without rescanning the
replacement. -/
def replaceAllGo (pat rep : List Char) : ℕ → List Char → List Char
  | _, [] => []
  | 0, s => s
  | fuel + 1, c :: rest =>
    if (c :: rest).take pat.length = pat then
      rep ++ replaceAllGo pat rep fuel ((c :: rest).drop pat.length)
    else c :: replaceAllGo pat rep fuel rest

/-- Python `s.replace(pat, rep)`. -/
def replaceAll (pat rep s : List Char) : List Char := replaceAllGo pat rep s.length s

/-- Alphanumeric test for the cleanup pattern `\-[a-zA-Z0-9]\-`. -/
def isAlnumAZ (c : Char) : Bool :=
  decide (('a' ≤ c ∧ c ≤ 'z') ∨ ('A' ≤ c ∧ c ≤ 'Z') ∨ ('0' ≤ c ∧ c ≤ '9'))

/-- Fuelled scanner for `re.sub(r"\-[a-zA-Z0-9]\-", "-", regex)`:
non-overlapping left-to-right replacement of dash-letter-dash by a dash. -/
def subDashesGo : ℕ → List Char → List Char
  | 0, s => s
  | _ + 1, [] => []
  | fuel + 1, '-' :: c :: '-' :: rest =>
    if isAlnumAZ c then '-' :: subDashesGo fuel rest
    else '-' :: subDashesGo fuel (c :: '-' :: rest)
  | fuel + 1, c :: rest => c :: subDashesGo fuel rest

/-- `re.sub(r"\-[a-zA-Z0-9]\-", "-", regex)`. -/
def subDashes (s : List Char) : List Char := subDashesGo s.length s

/-- `Regex._beautify_regex(regex)`: for each alphabet class (digits,
lowercase, uppercase) greedily collapse three consecutive code points into a
dash range and extend dash-adjacent ranges, then remove redundant
single-character dash artifacts. -/
def beautifyRegex (reg : String) : String :=
  let loopIdx := ((List.range 8).map (fun k => 48 + k)) ++
    ((List.range 24).map (fun k => 97 + k)) ++
    ((List.range 24).map (fun k => 65 + k))
  let r := loopIdx.foldl (fun r i =>
    let r1 := replaceAll [Char.ofNat i, Char.ofNat (i + 1), Char.ofNat (i + 2)]
      [Char.ofNat i, '-', Char.ofNat (i + 2)] r
    if i = 55 ∨ i = 95 ∨ i = 88 then r1
    else replaceAll ['-', Char.ofNat (i + 2), Char.ofNat (i + 3)]
      ['-', Char.ofNat (i + 3)] r1) reg.data
  String.mk (subDashes r)

/-- The fitted pattern of `Regex.from_data` (the validation and NA-rate
bookkeeping aside): train, then beautify. -/
def regexFit (data : List String) : String :=
  beautifyRegex (trainRegex (data.map String.data))

/-- All code points from `a` to `b` inclusive. -/
def charRange (a b : Char) : List Char :=
  (List.range (b.toNat + 1 - a.toNat)).map (fun k => Char.ofNat (a.toNat + k))

/-- Modelled from the spec: the members of one bracketed character class,
with backslash escapes and dash ranges interpreted as in a regular
expression. -/
def readClassItems : List Char → List Char
  | [] => []
  | '\\' :: c :: rest => c :: readClassItems rest
  | a :: '-' :: b :: rest => charRange a b ++ readClassItems rest
  | c :: rest => c :: readClassItems rest

/-- Modelled from the spec: split a concatenation of bracketed character
classes `[..][..]…` into the list of member lists (`none` when the string is
not of that shape). -/
def splitClassesGo : ℕ → List Char → Option (List (List Char))
  | _, [] => some []
  | 0, _ :: _ => none
  | fuel + 1, '[' :: rest =>
    let inner := rest.takeWhile (fun c => c ≠ ']')
    match rest.dropWhile (fun c => c ≠ ']') with
    | ']' :: more =>
      match splitClassesGo fuel more with
      | some cls => some (readClassItems inner :: cls)
      | none => none
    | _ => none
  | _ + 1, _ :: _ => none

/-- Modelled from the spec: the classes of a bracket-concatenation pattern. -/
def splitClasses (pat : List Char) : Option (List (List Char)) :=
  splitClassesGo pat.length pat

/-- Modelled from the spec (the contract of `rstr.xeger`): a string matches a
bracket-concatenation pattern iff it has one character per class, each a
member of its class. -/
def matchesPattern (pat : String) (s : List Char) : Bool :=
  (splitClasses pat.data).elim false (fun cls =>
    decide (s.length = cls.length) && (s.zip cls).all (fun pr => decide (pr.1 ∈ pr.2)))

set_option maxRecDepth 40000 in
/-- Claim C5: fitting the regex generator on the 10 equal-length strings
`"a-0", "b-1", …, "j-9"` produces exactly the pattern `[a-j][\-][0-9]`
(per character position the distinct characters are collected,
metacharacters escaped, members sorted, and runs of three or more
consecutive code points collapsed into dash ranges); and every string
matching the pattern has the original fixed length 3 and satisfies each
position's character class. -/
theorem claim_C5_regex_fit :
    regexFit ["a-0", "b-1", "c-2", "d-3", "e-4", "f-5", "g-6", "h-7", "i-8", "j-9"]
      = "[a-j][\\-][0-9]" ∧
    (∀ s : List Char, matchesPattern "[a-j][\\-][0-9]" s = true →
      s.length = 3 ∧ ('a' ≤ s.getD 0 ' ' ∧ s.getD 0 ' ' ≤ 'j') ∧
        s.getD 1 ' ' = '-' ∧ ('0' ≤ s.getD 2 ' ' ∧ s.getD 2 ' ' ≤ '9')) := by
  constructor
  · decide
  · intro s h
    unfold matchesPattern at h
    rw [show splitClasses ("[a-j][\\-][0-9]").data
        = some [['a', 'b', 'c', 'd', 'e', 'f', 'g', 'h', 'i', 'j'], ['-'],
          ['0', '1', '2', '3', '4', '5', '6', '7', '8', '9']] from by decide] at h
    simp only [Option.elim, Bool.and_eq_true, decide_eq_true_eq,
      List.all_eq_true] at h
    obtain ⟨h1, h2⟩ := h
    have h1' : s.length = 3 := by simpa using h1
    obtain ⟨a, b, c', rfl⟩ := List.length_eq_three.mp h1'
    have ha : a ∈ ['a', 'b', 'c', 'd', 'e', 'f', 'g', 'h', 'i', 'j'] := by
      simpa using h2 (a, ['a', 'b', 'c', 'd', 'e', 'f', 'g', 'h', 'i', 'j']) (by simp)
    have hb : b ∈ ['-'] := by
      simpa using h2 (b, ['-']) (by simp)
    have hc : c' ∈ ['0', '1', '2', '3', '4', '5', '6', '7', '8', '9'] := by
      simpa using h2 (c', ['0', '1', '2', '3', '4', '5', '6', '7', '8', '9']) (by simp)
    refine ⟨rfl, ?_, ?_, ?_⟩
    · show 'a' ≤ a ∧ a ≤ 'j'
      fin_cases ha <;> exact ⟨by decide, by decide⟩
    · show b = '-'
      simpa using hb
    · show '0' ≤ c' ∧ c' ≤ '9'
      fin_cases hc <;> exact ⟨by decide, by decide⟩

set_option maxRecDepth 40000 in
/-- Witness for claim C5 at the matching string `"c-7"`. -/
theorem claim_C5_regex_fit_witness :
    matchesPattern "[a-j][\\-][0-9]" ['c', '-', '7'] = true ∧
    (['c', '-', '7'].length = 3 ∧
      ('a' ≤ ['c', '-', '7'].getD 0 ' ' ∧ ['c', '-', '7'].getD 0 ' ' ≤ 'j') ∧
      ['c', '-', '7'].getD 1 ' ' = '-' ∧
      ('0' ≤ ['c', '-', '7'].getD 2 ' ' ∧ ['c', '-', '7'].getD 2 ' ' ≤ '9')) :=
  ⟨by decide, claim_C5_regex_fit.2 ['c', '-', '7'] (by decide)⟩

/-! ### Claim C6: fit-time validation, and a generation-time failure -/

/-- `helper.number_precision` with the failure of its first step made explicit:
`d = -int(np.ceil(np.log10(np.abs(np.amax(a)))))` raises `OverflowError` when
the maximum has absolute value zero, since `np.log10(0.0)` is `-inf` and
`int` cannot convert an infinity.  Otherwise it agrees with
`numberPrecision`. -/
def numberPrecisionE (a : List ℚ) : Option ℤ :=
  if |maxList a| = 0 then none else some (numberPrecision a)

/-- `helper.gcd` with the precision failure propagated (cf. `gcdQ`). -/
def gcdE (a : List ℚ) : Option ℚ :=
  (numberPrecisionE a).map (fun n =>
    aroundQ ((gcdList (a.map (fun q => rhe (q * (10 : ℚ) ^ n))) : ℚ) / (10 : ℚ) ^ n) n)

/-- `helper.roundx` with the precision failure propagated (cf. `roundxQ`). -/
def roundxE (a x : ℚ) : Option ℚ :=
  (numberPrecisionE [x]).map (fun n => aroundQ (x * (rhe (a / x) : ℚ)) n)

/-- One generated value of `Numeric` with the precision failures of
`helper.gcd` and `helper.roundx` propagated (cf. `numericMakeVal`). -/
def numericMakeE (g : QGen) (p : ℚ) : Option ℚ :=
  (gcdE g.vals).bind (fun x =>
    (roundxE (astypeNum g.dtype (interpQ p g.bins g.vals)) x).map (astypeNum g.dtype))

theorem linspace_two : linspace 2 = [0, 1] := by
  unfold linspace
  rw [show List.range 2 = [0, 1] from rfl]
  simp
  norm_num

theorem maskKeep_zero_ex : maskKeep [-2, 0] = [true, true] := rfl

theorem numericFromData_zero_ex :
    numericFromData .float [some 0, some (-2)]
      = .ok ⟨[-2, 0], [0, 1], .float, 0⟩ := by
  unfold numericFromData quantileInit
  rw [show List.filterMap id [some (0:ℚ), some (-2)] = [0, -2] from rfl]
  dsimp only
  rw [show ([0, -2] : List ℚ).length = 2 from rfl, linspace_two]
  rw [if_neg (by norm_num), if_neg (by simp), if_neg (by norm_num),
    if_neg (by norm_num), if_neg (by norm_num)]
  simp only [Except.ok.injEq, QGen.mk.injEq]
  have hsort : sortQ [0, -2] = ([-2, 0] : List ℚ) := rfl
  refine ⟨?_, ?_, by norm_num⟩
  · rw [hsort, maskKeep_zero_ex]
    rfl
  · rw [hsort, maskKeep_zero_ex]
    rfl

theorem maxList_zero_ex : maxList [(-2 : ℚ), 0] = 0 := by
  unfold maxList
  simp only [List.headD_cons, List.foldl_cons, List.foldl_nil]
  rw [max_self]
  exact max_eq_right (by norm_num)

theorem gcdE_zero : gcdE [(-2 : ℚ), 0] = none := by
  unfold gcdE numberPrecisionE
  rw [maxList_zero_ex, if_pos (by norm_num : |(0 : ℚ)| = 0)]
  rfl

theorem numericMakeE_zero (p : ℚ) :
    numericMakeE ⟨[-2, 0], [0, 1], .float, 0⟩ p = none := by
  unfold numericMakeE
  dsimp only
  rw [gcdE_zero]
  rfl

/-- Claim C6: quantile fitting validates eagerly — `ValueError` for fewer than
two non-missing values, mismatched breakpoint/value shapes, or `na_rate`
outside `[0,1]`, and `TypeError` for a wrong input dtype — but the final part
of the claim fails: a successfully fitted numeric quantile generator CAN raise
during generation.  `Numeric.from_data([0.0, -2.0])` fits, yet every `make`
call fails inside `helper.gcd`, whose first step converts
`log10(abs(amax(vals))) = log10(0) = -inf` to `int` (an `OverflowError`). -/
theorem claim_C6_quantile_errors :
    (∀ (dtype : Dtype) (data : List (Option ℚ)), data ≠ [] →
      (data.filterMap id).length < 2 →
      (dtype = .int ∨ dtype = .float) →
      numericFromData dtype data = .error .valueError) ∧
    (∀ (vals bins : List ℚ) (dtype : Dtype) (naRate : ℚ), ¬ vals.length < 2 →
      bins.length ≠ vals.length →
      quantileInit vals (some bins) dtype naRate = .error .valueError) ∧
    (∀ (vals : List ℚ) (dtype : Dtype) (naRate : ℚ), ¬ vals.length < 2 →
      (naRate < 0 ∨ 1 < naRate) →
      quantileInit vals none dtype naRate = .error .valueError) ∧
    (∀ (dtype : Dtype) (data : List (Option ℚ)), data ≠ [] →
      ¬ (dtype = .int ∨ dtype = .float) →
      numericFromData dtype data = .error .typeError) ∧
    (∀ (dtype : Dtype) (data : List (Option ℚ)), data ≠ [] →
      ¬ dtype = .datetime →
      datetimeFromData dtype data = .error .typeError) ∧
    (numericFromData .float [some 0, some (-2)]
        = .ok ⟨[-2, 0], [0, 1], .float, 0⟩ ∧
      ∀ p : ℚ, numericMakeE ⟨[-2, 0], [0, 1], .float, 0⟩ p = none) := by
  refine ⟨?_, ?_, ?_, ?_, ?_, numericFromData_zero_ex, numericMakeE_zero⟩
  · intro dtype data hne hlen hdt
    unfold numericFromData quantileInit
    rw [if_neg (fun h => hne (List.length_eq_zero.mp h)),
      if_neg (not_not_intro hdt)]
    dsimp only
    rw [if_pos hlen]
  · intro vals bins dtype naRate h2 hsh
    unfold quantileInit
    dsimp only
    rw [if_neg h2, if_pos hsh]
  · intro vals dtype naRate h2 hna
    unfold quantileInit
    dsimp only
    rw [if_neg h2, if_neg (fun h => h (linspace_length vals.length)), if_pos hna]
  · intro dtype data hne hdt
    unfold numericFromData
    rw [if_neg (fun h => hne (List.length_eq_zero.mp h)), if_pos hdt]
  · intro dtype data hne hdt
    unfold datetimeFromData
    rw [if_neg (fun h => hne (List.length_eq_zero.mp h)), if_pos hdt]

/-- Witness for claim C6: one concrete input per validation error. -/
theorem claim_C6_quantile_errors_witness :
    numericFromData .float [some (1 : ℚ)] = .error .valueError ∧
    quantileInit [1, 2] (some [0]) .float 0 = .error .valueError ∧
    quantileInit [1, 2] none .float 2 = .error .valueError ∧
    numericFromData .str [some (1 : ℚ)] = .error .typeError ∧
    datetimeFromData .float [some (1 : ℚ)] = .error .typeError :=
  ⟨claim_C6_quantile_errors.1 .float [some 1] (by simp) (by decide) (Or.inr rfl),
   claim_C6_quantile_errors.2.1 [1, 2] [0] .float 0 (by decide) (by decide),
   claim_C6_quantile_errors.2.2.1 [1, 2] .float 2 (by decide) (Or.inr (by norm_num)),
   claim_C6_quantile_errors.2.2.2.1 .str [some 1] (by simp) (by simp),
   claim_C6_quantile_errors.2.2.2.2.1 .float [some 1] (by simp) (by simp)⟩

/-! ### Claim C3: numeric generation and the fitted gcd -/

theorem gcdE_eq {a : List ℚ} (h : |maxList a| ≠ 0) : gcdE a = some (gcdQ a) := by
  unfold gcdE numberPrecisionE
  rw [if_neg h]
  rfl

theorem maxList_singleton (x : ℚ) : maxList [x] = x := by
  unfold maxList
  simp only [List.headD_cons, List.foldl_cons, List.foldl_nil, max_self]

theorem roundxE_eq (a : ℚ) {x : ℚ} (hx : x ≠ 0) :
    roundxE a x = some (roundxQ a x) := by
  unfold roundxE numberPrecisionE
  rw [maxList_singleton, if_neg (abs_ne_zero.mpr hx)]
  rfl

theorem clog_cexMax : Int.clog 10 ((2 : ℚ) / 1000000000000000000) = -17 := by
  refine clog10_eq (by norm_num) ?_ ?_
  · rw [show (-17 - 1 : ℤ) = -18 from rfl, zpow_neg]
    norm_num
  · rw [zpow_neg]
    norm_num

theorem maxList_cex : maxList [-30000000000000003/100000000000000000,
    2/1000000000000000000] = (2 : ℚ) / 1000000000000000000 := by
  unfold maxList
  simp only [List.headD_cons, List.foldl_cons, List.foldl_nil, max_self]
  exact max_eq_right (by norm_num)

theorem numberPrecision_cexVals : numberPrecision
    [-30000000000000003/100000000000000000, 2/1000000000000000000] = 17 := by
  unfold numberPrecision
  rw [maxList_cex, abs_of_pos (by norm_num), clog_cexMax]
  norm_num
  rfl

/-- The fitted gcd of the counterexample needs 17 decimal digits: it is not
exactly representable at 16 or fewer. -/
theorem notExactAt_cexGcd {e : ℤ} (he : e ≤ 16) :
    ¬ ExactAt ((30000000000000003 : ℚ) / 100000000000000000) e := by
  rintro ⟨k, hk⟩
  have h17 : (100000000000000000 : ℚ) = (10 : ℚ) ^ (17 : ℤ) := by norm_num
  rw [h17] at hk
  have hN : (30000000000000003 : ℚ) = (k : ℚ) * (10 : ℚ) ^ (17 - e : ℤ) := by
    have h1 : (30000000000000003 : ℚ)
        = (30000000000000003 : ℚ) / (10 : ℚ) ^ (17 : ℤ) * (10 : ℚ) ^ (e : ℤ)
          * (10 : ℚ) ^ (17 - e : ℤ) := by
      rw [mul_assoc, ← zpow_add₀ (by norm_num : (10 : ℚ) ≠ 0)]
      rw [show (e + (17 - e) : ℤ) = 17 from by ring]
      field_simp
    rw [h1, hk]
  have hm : (10 : ℚ) ^ (17 - e : ℤ) = ((10 ^ (17 - e).toNat : ℤ) : ℚ) := by
    push_cast
    rw [← zpow_natCast]
    congr 1
    omega
  rw [hm] at hN
  have hZ : (30000000000000003 : ℤ) = k * 10 ^ (17 - e).toNat := by
    exact_mod_cast hN
  have hdvd : (10 : ℤ) ∣ 10 ^ (17 - e).toNat :=
    dvd_pow_self 10 (by omega : (17 - e).toNat ≠ 0)
  have h10 : (10 : ℤ) ∣ 30000000000000003 := hZ ▸ hdvd.mul_left k
  omega

theorem clog_cexGcd :
    Int.clog 10 ((30000000000000003 : ℚ) / 100000000000000000) = 0 := by
  refine clog10_eq (by norm_num) ?_ ?_
  · rw [show (0 - 1 : ℤ) = -1 from rfl, zpow_neg]
    norm_num
  · norm_num

/-- The `number_precision` scan on the fitted gcd alone exhausts the
16-digit cap without reaching exactness. -/
theorem numberPrecision_cexGcd :
    numberPrecision [(30000000000000003 : ℚ) / 100000000000000000] = 16 := by
  unfold numberPrecision
  rw [maxList_singleton, abs_of_pos (by norm_num), clog_cexGcd]
  dsimp only
  simp only [neg_zero]
  rw [show ((16 - 0 : ℤ)).toNat = 16 from rfl]
  rw [numberPrecisionGo_eq_of_never 16 0 ?_]
  · ring
  · intro e he1 he2
    refine ⟨_, List.mem_singleton_self _, ?_⟩
    intro heq
    exact notExactAt_cexGcd (by push_cast at he2; omega) (exactAt_of_eq_around heq)

theorem gcdQ_cex : gcdQ [-30000000000000003/100000000000000000,
    2/1000000000000000000] = 30000000000000003/100000000000000000 := by
  unfold gcdQ
  rw [numberPrecision_cexVals]
  dsimp only
  have hr1 : rhe ((-30000000000000003/100000000000000000 : ℚ) * (10 : ℚ) ^ (17 : ℤ))
      = -30000000000000003 := by
    rw [show (-30000000000000003/100000000000000000 : ℚ) * (10 : ℚ) ^ (17 : ℤ)
        = ((-30000000000000003 : ℤ) : ℚ) from by push_cast; norm_num]
    exact rhe_intCast _
  have hfl : ⌊(1/5 : ℚ)⌋ = 0 := by
    rw [Int.floor_eq_iff]
    constructor <;> norm_num
  have hr2 : rhe ((2/1000000000000000000 : ℚ) * (10 : ℚ) ^ (17 : ℤ)) = 0 := by
    rw [show (2/1000000000000000000 : ℚ) * (10 : ℚ) ^ (17 : ℤ) = 1/5 from by norm_num]
    rw [rhe_eq_floor (by rw [hfl]; norm_num), hfl]
  rw [List.map_cons, List.map_cons, List.map_nil, hr1, hr2]
  rw [show gcdList [(-30000000000000003 : ℤ), 0] = 30000000000000003 from by decide]
  rw [aroundQ_of_exact ⟨30000000000000003, by push_cast; norm_num⟩]
  push_cast
  norm_num

theorem interpQ_cex : interpQ (1/4) [(0 : ℚ), 1]
    [-30000000000000003/100000000000000000, 2/1000000000000000000]
    = -225000000000000022/1000000000000000000 := by
  unfold interpQ
  rw [show searchsortedL [(0 : ℚ), 1] (1/4) = 1 from by
    unfold searchsortedL
    simp only [List.countP_cons, List.countP_nil]
    norm_num]
  dsimp only
  norm_num [getWrapQ, List.getD]

theorem roundxQ_cex : roundxQ (-225000000000000022/1000000000000000000)
    (30000000000000003/100000000000000000) = -3/10 := by
  unfold roundxQ
  rw [numberPrecision_cexGcd]
  rw [show (-225000000000000022/1000000000000000000 : ℚ)
      / (30000000000000003/100000000000000000)
      = -225000000000000022/300000000000000030 from by norm_num]
  have hfl : ⌊(-225000000000000022/300000000000000030 : ℚ)⌋ = -1 := by
    rw [Int.floor_eq_iff]
    constructor <;> norm_num
  rw [rhe_eq_floor (by rw [hfl]; norm_num), hfl]
  unfold aroundQ
  rw [show (30000000000000003/100000000000000000 : ℚ) * ((-1 : ℤ) : ℚ)
      * (10 : ℚ) ^ (16 : ℤ) = -30000000000000003/10 from by push_cast; norm_num]
  have hfl2 : ⌊(-30000000000000003/10 : ℚ)⌋ = -3000000000000001 := by
    rw [Int.floor_eq_iff]
    constructor <;> norm_num
  rw [rhe_eq_floor_add_one (by rw [hfl2]; norm_num), hfl2]
  push_cast
  norm_num

theorem numericFromData_cex :
    numericFromData .float [some (-30000000000000003/100000000000000000),
        some (2/1000000000000000000)]
      = .ok ⟨[-30000000000000003/100000000000000000, 2/1000000000000000000],
          [0, 1], .float, 0⟩ := by
  unfold numericFromData quantileInit
  rw [show List.filterMap id [some (-30000000000000003/100000000000000000 : ℚ),
      some (2/1000000000000000000)]
      = [-30000000000000003/100000000000000000, 2/1000000000000000000] from rfl]
  dsimp only
  rw [show ([-30000000000000003/100000000000000000,
      2/1000000000000000000] : List ℚ).length = 2 from rfl, linspace_two]
  rw [if_neg (by norm_num), if_neg (by simp), if_neg (by norm_num),
    if_neg (by norm_num), if_neg (by norm_num)]
  simp only [Except.ok.injEq, QGen.mk.injEq]
  have hsort : sortQ [-30000000000000003/100000000000000000, 2/1000000000000000000]
      = ([-30000000000000003/100000000000000000, 2/1000000000000000000] : List ℚ) := by
    unfold sortQ
    simp only [List.insertionSort, List.orderedInsert]
    rw [if_pos (by norm_num : (-30000000000000003/100000000000000000 : ℚ)
      ≤ 2/1000000000000000000)]
  have hmask : maskKeep [-30000000000000003/100000000000000000,
      (2/1000000000000000000 : ℚ)] = [true, true] := rfl
  refine ⟨?_, ?_, by norm_num⟩
  · rw [hsort, hmask]
    rfl
  · rw [hsort, hmask]
    rfl

/-- Claim C3, amended: for a numeric quantile generator whose fitted values
are all exactly representable within the 16-decimal cap of
`helper.number_precision` and whose maximum is nonzero, generation succeeds
and every returned value is an exact integer multiple of the fitted greatest
common divisor — computed by finding the minimal decimal precision `d` at
which all fitted values are exact, scaling by `10^d` to integers, taking the
integer gcd, and rescaling by `10^-d`; values may be negative or zero
(fitting `[2,2,2,4,6,8]` yields gcd 2, `[5,10,15]` yields 5, `[-4,6]` yields
2).  Beyond the cap the property fails (see the counterexample), and a zero
maximum makes generation raise instead (claim C6). -/
theorem claim_C3_numeric_multiple_of_gcd (g : QGen) (p : ℚ) (m : ℤ)
    (hne : g.vals ≠ [])
    (hmax : maxList g.vals ≠ 0)
    (hex : ∀ v ∈ g.vals, ExactAt v m)
    (h16 : m ≤ 16)
    (hint : g.dtype = .int → ∀ v ∈ g.vals, ∃ z : ℤ, v = (z : ℚ)) :
    (∃ k : ℤ, numericMakeE g p = some ((k : ℚ) * gcdQ g.vals)) ∧
    gcdQ [2, 2, 4, 6, 8] = 2 ∧ gcdQ [5, 10, 15] = 5 ∧ gcdQ [-4, 6] = 2 := by
  refine ⟨?_, gcdQ_ex1, gcdQ_ex2, gcdQ_ex3⟩
  have hexn : ∀ v ∈ g.vals, ExactAt v (numberPrecision g.vals) :=
    numberPrecision_exact hex h16
  obtain ⟨hg0, hgex⟩ := gcdQ_exact_ne_zero hne hmax hexn
  have hd0 : -(Int.clog 10 |maxList g.vals|) ≤ m :=
    neg_clog_abs_le_of_exact hmax (hex _ (maxList_mem hne))
  have hn16 : numberPrecision g.vals ≤ 16 :=
    le_trans (numberPrecision_le_of_exact hex h16 hd0) h16
  have hgex2 : ExactAt (gcdQ g.vals) (numberPrecision [gcdQ g.vals]) := by
    refine numberPrecision_exact (m := numberPrecision g.vals) ?_ hn16 _
      (List.mem_singleton_self _)
    intro q hq
    rw [List.mem_singleton] at hq
    subst hq
    exact hgex
  obtain ⟨k, hk⟩ := roundxQ_multiple (astypeNum g.dtype (interpQ p g.bins g.vals))
    hg0 hgex2
  have hE : numericMakeE g p
      = some (astypeNum g.dtype
          (roundxQ (astypeNum g.dtype (interpQ p g.bins g.vals)) (gcdQ g.vals))) := by
    unfold numericMakeE
    rw [gcdE_eq (abs_ne_zero.mpr hmax)]
    show (roundxE (astypeNum g.dtype (interpQ p g.bins g.vals)) (gcdQ g.vals)).map
        (astypeNum g.dtype) = _
    rw [roundxE_eq _ hg0]
    rfl
  rw [hE, hk]
  by_cases hd : g.dtype = .int
  · obtain ⟨z, hz⟩ := gcdQ_intValued hne hmax (hint hd)
    refine ⟨k, ?_⟩
    rw [hd, hz, show (k : ℚ) * (z : ℚ) = ((k * z : ℤ) : ℚ) by push_cast; ring,
      astypeNum_int_intCast]
  · exact ⟨k, by rw [astypeNum_of_ne_int hd]⟩

/-- Witness for (amended) claim C3 on the generator fitted from
`[2,2,2,4,6,8]`. -/
theorem claim_C3_numeric_multiple_of_gcd_witness :
    ∃ k : ℤ, numericMakeE ⟨[2, 2, 4, 6, 8], [0, 2/5, 3/5, 4/5, 1], .int, 0⟩ (1/2)
      = some ((k : ℚ) * gcdQ [2, 2, 4, 6, 8]) :=
  (claim_C3_numeric_multiple_of_gcd
    ⟨[2, 2, 4, 6, 8], [0, 2/5, 3/5, 4/5, 1], .int, 0⟩ (1/2) 0
    (by simp)
    (maxList_ne_zero_of_all (by simp) (by intro q hq; fin_cases hq <;> norm_num))
    (by
      intro v hv
      rw [show ((QGen.mk [2, 2, 4, 6, 8] [0, 2/5, 3/5, 4/5, 1] .int 0).vals)
          = [2, 2, 4, 6, 8] from rfl] at hv
      fin_cases hv
      · exact ⟨2, by norm_num⟩
      · exact ⟨2, by norm_num⟩
      · exact ⟨4, by norm_num⟩
      · exact ⟨6, by norm_num⟩
      · exact ⟨8, by norm_num⟩)
    (by norm_num)
    (by
      intro _ v hv
      fin_cases hv
      · exact ⟨2, by norm_num⟩
      · exact ⟨2, by norm_num⟩
      · exact ⟨4, by norm_num⟩
      · exact ⟨6, by norm_num⟩
      · exact ⟨8, by norm_num⟩)).1

/-- Counterexample to claim C3 as stated universally: fitting `Numeric` on
`[-0.30000000000000003, 2e-18]` succeeds, the fitted gcd is the 17-decimal
value `0.30000000000000003`, and generation at the draw `1/4` returns `-0.3`
(the product is rounded at the gcd's own detected precision, which the
16-decimal cap truncates), which is not an integer multiple of the fitted
gcd. -/
theorem claim_C3_numeric_multiple_of_gcd_counterexample :
    numericFromData .float [some (-30000000000000003/100000000000000000),
        some (2/1000000000000000000)]
      = .ok ⟨[-30000000000000003/100000000000000000, 2/1000000000000000000],
          [0, 1], .float, 0⟩ ∧
    gcdQ [-30000000000000003/100000000000000000, 2/1000000000000000000]
      = 30000000000000003/100000000000000000 ∧
    numericMakeE ⟨[-30000000000000003/100000000000000000, 2/1000000000000000000],
        [0, 1], .float, 0⟩ (1/4) = some (-3/10) ∧
    ¬ ∃ k : ℤ, (-3/10 : ℚ)
      = (k : ℚ) * (30000000000000003/100000000000000000) := by
  refine ⟨numericFromData_cex, gcdQ_cex, ?_, ?_⟩
  · unfold numericMakeE
    rw [show ((⟨[-30000000000000003/100000000000000000, 2/1000000000000000000],
        [0, 1], .float, 0⟩ : QGen)).vals
        = [-30000000000000003/100000000000000000, 2/1000000000000000000] from rfl]
    rw [gcdE_eq (by rw [maxList_cex]; norm_num), gcdQ_cex]
    show (roundxE (astypeNum .float (interpQ (1/4) [0, 1]
        [-30000000000000003/100000000000000000, 2/1000000000000000000]))
        (30000000000000003/100000000000000000)).map (astypeNum .float)
      = some (-3/10)
    rw [show astypeNum .float (interpQ (1/4) [0, 1]
        [-30000000000000003/100000000000000000, 2/1000000000000000000])
        = interpQ (1/4) [0, 1]
          [-30000000000000003/100000000000000000, 2/1000000000000000000] from rfl]
    rw [interpQ_cex, roundxE_eq _ (by norm_num), roundxQ_cex]
    rfl
  · rintro ⟨k, hk⟩
    have h : (-30000000000000000 : ℚ) = (k : ℚ) * 30000000000000003 := by
      field_simp at hk
      linarith
    have hz : (-30000000000000000 : ℤ) = k * 30000000000000003 := by
      exact_mod_cast h
    omega

/-! ### Claim C7: Category on an all-missing column -/

/-- The state of a fitted category generator: the frequency-table values and
probabilities, the dtype tag and the NA rate. -/
structure CatGen where
  vals : List Val
  p : List ℚ
  dtype : Dtype
  naRate : ℚ
deriving DecidableEq

/-- `Category.__init__(vals, p, dtype, na_rate)`: shape check and `na_rate`
range check. -/
def categoryInit (vals : List Val) (p : List ℚ) (dtype : Dtype) (naRate : ℚ) :
    Except Err CatGen :=
  if p.length ≠ vals.length then .error .valueError
  else if naRate < 0 ∨ 1 < naRate then .error .valueError
  else .ok ⟨vals, p, dtype, naRate⟩

/-- `Category.from_data(data)`: `Generator.validate` (non-empty; `Category`
restricts no dtypes), then the normalized frequency table of the non-missing
values (`pd.value_counts(..., normalize=True, dropna=True)`) and the missing
fraction `pd.isna(data).sum() / data.size`.  Nothing on this path rejects an
empty frequency table. -/
def categoryFromData (dtype : Dtype) (data : List (Option Val)) :
    Except Err CatGen :=
  if data.length = 0 then .error .valueError
  else
    let vals := data.filterMap id
    let u := vals.dedup
    categoryInit u (u.map (fun v => (vals.count v : ℚ) / (vals.length : ℚ)))
      dtype ((data.countP (fun x => x.isNone) : ℚ) / (data.length : ℚ))

/-- The selection walk of `np.random.choice(a, p)` at one uniform draw:
take the first value whose cumulative probability exceeds the draw. -/
def pickCum : List Val → List ℚ → ℚ → Val
  | [], _, _ => .vs ""
  | v :: _, [], _ => v
  | v :: vs, p :: ps, u => if u < p then v else pickCum vs ps (u - p)

/-- `Category._make(size)` at the uniform draws `us`.  Modelled from the
spec: `np.random.choice` raises `ValueError` when its candidate set `a` is
empty. -/
def categoryMakeE (g : CatGen) (us : List ℚ) : Except Err (List Val) :=
  if g.vals.length = 0 then .error .valueError
  else .ok (us.map (fun u => pickCum g.vals g.p u))

/-- Counterexample to claim C7 as stated: fitting the category generator on
the non-empty all-missing column `[NA, NA]` does not fail with `ValueError`;
it succeeds, with an empty frequency table and `na_rate = 1`. -/
theorem claim_C7_category_missing_counterexample :
    categoryFromData .str [none, none] = .ok ⟨[], [], .str, 1⟩ := by
  unfold categoryFromData categoryInit
  rw [show List.filterMap id [(none : Option Val), none] = [] from rfl]
  dsimp only
  rw [show ([] : List Val).dedup = [] from rfl]
  rw [show List.countP (fun x => x.isNone) [(none : Option Val), none] = 2 from rfl,
    show ([(none : Option Val), none].length) = 2 from rfl]
  dsimp only [List.map_nil]
  rw [if_neg (by norm_num), if_neg (by norm_num), if_neg (by norm_num)]
  simp only [Except.ok.injEq, CatGen.mk.injEq]
  norm_num

/-- Claim C7, amended: fitting the category generator on a non-empty column
whose non-missing value set is empty succeeds, producing an empty frequency
table with `na_rate = 1`; the `ValueError` arises only later, at generation
time, when `np.random.choice` is called with an empty candidate set. -/
theorem claim_C7_category_missing (dtype : Dtype) (data : List (Option Val))
    (hne : data ≠ []) (hmiss : data.filterMap id = []) :
    ∃ g, categoryFromData dtype data = .ok g ∧ g.vals = [] ∧ g.naRate = 1 ∧
      ∀ us, categoryMakeE g us = .error .valueError := by
  have hn : (0 : ℚ) < (data.length : ℚ) := by
    have := List.length_pos.mpr hne
    exact_mod_cast this
  have hcnt : data.countP (fun x => x.isNone) = data.length := by
    rw [List.countP_eq_length]
    intro a ha
    have h0 : id a = none := (List.filterMap_eq_nil.mp hmiss) a ha
    simp only [id] at h0
    simp [h0]
  refine ⟨⟨[], [], dtype, 1⟩, ?_, rfl, rfl, fun us => rfl⟩
  unfold categoryFromData categoryInit
  rw [if_neg (fun h => hne (List.length_eq_zero.mp h))]
  dsimp only
  rw [hmiss]
  rw [show ([] : List Val).dedup = [] from rfl]
  dsimp only [List.map_nil]
  rw [if_neg (by simp), if_neg (by rw [hcnt, div_self (ne_of_gt hn)]; norm_num)]
  simp only [Except.ok.injEq, CatGen.mk.injEq]
  refine ⟨trivial, trivial, trivial, ?_⟩
  rw [hcnt]
  exact div_self (ne_of_gt hn)

/-- Witness for (amended) claim C7 at the all-missing column `[NA, NA]`. -/
theorem claim_C7_category_missing_witness :
    ∃ g, categoryFromData .str [none, none] = .ok g ∧ g.vals = [] ∧
      g.naRate = 1 ∧ ∀ us, categoryMakeE g us = .error .valueError :=
  claim_C7_category_missing .str [none, none] (by simp) rfl

/-! ### Claims C8, C9, C10: Generator.make postprocessing -/

/-- numpy `astype` on a single cell, for the dtype pairs `Generator.make`
produces; a cast between unrelated dtypes, which never occurs on these
paths, is left as the identity. -/
def castVal : Dtype → Val → Val
  | .int, .vf q => .vi (Int.tdiv q.num (q.den : ℤ))
  | .int, .vb b => .vi (if b then 1 else 0)
  | .float, .vi n => .vf (n : ℚ)
  | .float, .vb b => .vf (if b then 1 else 0)
  | .bool, .vi n => .vb (decide (¬ n = 0))
  | .bool, .vf q => .vb (decide (¬ q = 0))
  | _, v => v

/-- `Generator.make(size, with_na)`: the raw `_make` output cast to the
fitted dtype; when `with_na` is set and at least one uniform draw falls below
`na_rate`, an integer array is first recast to float, and the selected
positions are set to NaN/NaT (`none`).  The pair carries the dtype of the
returned numpy array alongside its cells. -/
def makeArr (dtype : Dtype) (naRate : ℚ) (raw : List Val) (withNa : Bool)
    (u : List ℚ) : Dtype × List (Option Val) :=
  let data := raw.map (fun v => some (castVal dtype v))
  if withNa then
    let isna := u.map (fun x => decide (x < naRate))
    if isna.any id then
      let data2 := if dtype = .int then
          raw.map (fun v => some (castVal .float (castVal dtype v)))
        else data
      let dt := if dtype = .int then .float else dtype
      (dt, (data2.zip isna).map (fun pr => if pr.2 then none else pr.1))
    else (dtype, data)
  else (dtype, data)

/-- `Constant._make(size)`: `np.full(size, value)`. -/
def constantMake (v : Val) (n : ℕ) : List Val := List.replicate n v

/-- `Numeric._make(size)` as cells, on the error-free path: interpolation at
each uniform draw, the dtype cast of `QuantileGenerator._make`, and the gcd
rounding (cf. `numericMakeVal`; the failing precision computations are
modelled by `numericMakeE` and `numericMakeListE`).  Used as an arbitrary
raw input to `makeArr` in the dtype claim. -/
def numericRawMake (g : QGen) (draws : List ℚ) : List Val :=
  draws.map (fun p =>
    .vf (roundxQ (astypeNum g.dtype (interpQ p g.bins g.vals)) (gcdQ g.vals)))

/-- `Datetime._make(size)` as cells, over interpolated tick values (cf.
`datetimeMakeVal`). -/
def datetimeRawMake (vals : List ℤ) (draws : List ℤ) : List Val :=
  draws.map (fun x => .vdt (datetimeMakeVal vals x))

/-- `Category._make(size)` as cells, at the uniform draws `us`, on the
error-free path (the `ValueError` on an empty candidate set is modelled by
`categoryMakeE`).  Used as an arbitrary raw input to `makeArr` in the dtype
claim. -/
def categoryRawMake (g : CatGen) (us : List ℚ) : List Val :=
  us.map (fun u => pickCum g.vals g.p u)

/-- Claim C8: `Generator.make` returns its raw `_make` output cast with
`astype(self.dtype)`, so (without NA injection) the returned array's dtype
equals the generator's fitted `dtype` attribute — for every dtype and raw
output, in particular for the quantile and category variants. -/
theorem claim_C8_dtype_roundtrip :
    (∀ (dtype : Dtype) (naRate : ℚ) (raw : List Val) (u : List ℚ),
      (makeArr dtype naRate raw false u).1 = dtype) ∧
    (∀ (g : QGen) (draws u : List ℚ),
      (makeArr g.dtype g.naRate (numericRawMake g draws) false u).1 = g.dtype) ∧
    (∀ (g : CatGen) (us u : List ℚ),
      (makeArr g.dtype g.naRate (categoryRawMake g us) false u).1 = g.dtype) :=
  ⟨fun _ _ _ _ => rfl, fun _ _ _ => rfl, fun _ _ _ => rfl⟩

theorem makeArr_int_any (naRate : ℚ) (raw : List Val) (u : List ℚ)
    (hany : (u.any fun x => decide (x < naRate)) = true) :
    makeArr .int naRate raw true u
      = (.float, ((raw.map fun v => some (castVal .float (castVal .int v))).zip
          (u.map fun x => decide (x < naRate))).map
            (fun pr => if pr.2 then none else pr.1)) := by
  unfold makeArr
  dsimp only
  rw [if_pos rfl, if_pos (by simpa [List.any_map, Function.comp] using hany),
    if_pos rfl, if_pos rfl]

theorem zipMask_getD (a : List (Option Val)) (b : List Bool) (i : ℕ)
    (d : Option Val) (ha : i < a.length) (hb : i < b.length) :
    ((a.zip b).map (fun pr => if pr.2 then none else pr.1)).getD i d
      = if b.getD i false then none else a.getD i d := by
  have hab : i < ((a.zip b).map (fun pr => if pr.2 then none else pr.1)).length := by
    simp only [List.length_map, List.length_zip, lt_min_iff]
    exact ⟨ha, hb⟩
  rw [List.getD_eq_getElem _ _ hab, List.getElem_map, List.getElem_zip,
    List.getD_eq_getElem _ _ ha, List.getD_eq_getElem _ _ hb]

/-- Claim C9: for a generator fitted with the integer dtype,
`make(size, with_na=True)` returns a float array whenever at least one
uniform draw selects a position for NA injection — the selected positions
hold the missing marker and the others the float-cast values — while
`with_na=False`, or `with_na=True` with no position selected, preserves the
integer dtype. -/
theorem claim_C9_na_int_to_float (naRate : ℚ) (raw : List Val) (u : List ℚ) :
    ((u.any fun x => decide (x < naRate)) = true →
      (makeArr .int naRate raw true u).1 = .float ∧
      ∀ i : ℕ, i < raw.length → i < u.length →
        (u.getD i 0 < naRate →
          (makeArr .int naRate raw true u).2.getD i (some (.vi 0)) = none) ∧
        (¬ u.getD i 0 < naRate →
          (makeArr .int naRate raw true u).2.getD i none
            = some (castVal .float (castVal .int (raw.getD i (.vi 0)))))) ∧
    ((u.any fun x => decide (x < naRate)) = false →
      (makeArr .int naRate raw true u).1 = .int) ∧
    (makeArr .int naRate raw false u).1 = .int := by
  refine ⟨?_, ?_, rfl⟩
  · intro hany
    rw [makeArr_int_any naRate raw u hany]
    refine ⟨rfl, ?_⟩
    intro i hi hu
    have hA : i < (raw.map fun v => some (castVal .float (castVal .int v))).length := by
      simpa using hi
    have hB : i < (u.map fun x => decide (x < naRate)).length := by
      simpa using hu
    constructor
    · intro hsel
      rw [zipMask_getD _ _ i _ hA hB, List.getD_eq_getElem _ _ hB, List.getElem_map]
      rw [if_pos (by rw [decide_eq_true_eq]
                     rwa [List.getD_eq_getElem _ _ hu] at hsel)]
    · intro hsel
      rw [zipMask_getD _ _ i _ hA hB, List.getD_eq_getElem _ _ hB, List.getElem_map]
      rw [if_neg (by simp only [decide_eq_true_eq]
                     rwa [List.getD_eq_getElem _ _ hu] at hsel)]
      rw [List.getD_eq_getElem _ _ hA, List.getElem_map,
        List.getD_eq_getElem _ _ hi]
  · intro hnone
    unfold makeArr
    dsimp only
    have h' : (u.map fun x => decide (x < naRate)).any id = false := by
      simpa [List.any_map, Function.comp] using hnone
    rw [if_pos rfl, if_neg (by simp [h'])]

/-- Witness for claim C9: with `na_rate = 1`, raw values `[7, 8]` and draws
`[0, 2]`, position 0 is injected, the dtype flips to float, and position 1
keeps the float-cast value; without injection the dtype stays integer. -/
theorem claim_C9_na_int_to_float_witness :
    (makeArr .int 1 [.vi 7, .vi 8] true [0, 2]).1 = .float ∧
    (makeArr .int 1 [.vi 7, .vi 8] true [0, 2]).2.getD 0 (some (.vi 0)) = none ∧
    (makeArr .int 1 [.vi 7, .vi 8] true [0, 2]).2.getD 1 none
      = some (castVal .float (castVal .int (.vi 8))) ∧
    (makeArr .int 1 [.vi 7, .vi 8] false [0, 2]).1 = .int :=
  ⟨((claim_C9_na_int_to_float 1 [.vi 7, .vi 8] [0, 2]).1 (by decide)).1,
   (((claim_C9_na_int_to_float 1 [.vi 7, .vi 8] [0, 2]).1 (by decide)).2
      0 (by decide) (by decide)).1 (by decide),
   (((claim_C9_na_int_to_float 1 [.vi 7, .vi 8] [0, 2]).1 (by decide)).2
      1 (by decide) (by decide)).2 (by decide),
   (claim_C9_na_int_to_float 1 [.vi 7, .vi 8] [0, 2]).2.2⟩

/-- `helper.roundx` on a whole generated batch, with the precision failure
of `number_precision((x,))` propagated (cf. `roundxE`). -/
def roundxListE (a : List ℚ) (x : ℚ) : Option (List ℚ) :=
  (numberPrecisionE [x]).map (fun n => a.map (fun v => aroundQ (x * (rhe (v / x) : ℚ)) n))

/-- `Numeric._make(size)` with the generation-time failures of `helper.gcd`
and `helper.roundx` propagated (cf. `numericMakeE` for a single value):
interpolate at every draw, cast, then round the whole batch to the fitted
gcd — or fail, as on the claim C6 input. -/
def numericMakeListE (g : QGen) (draws : List ℚ) : Option (List ℚ) :=
  (gcdE g.vals).bind (fun x =>
    roundxListE (draws.map (fun p => astypeNum g.dtype (interpQ p g.bins g.vals))) x)

theorem maxList_ones : maxList [(1 : ℚ), 1] = 1 := by
  unfold maxList
  simp only [List.headD_cons, List.foldl_cons, List.foldl_nil, max_self]

theorem numberPrecision_ones : numberPrecision [(1 : ℚ), 1] = 0 := by
  refine numberPrecision_eq_zero_of (by simp)
    (maxList_ne_zero_of_all (by simp) (by intro q hq; fin_cases hq <;> norm_num)) ?_
    (show (1 : ℚ) ∈ [1, 1] by simp) (by norm_num) (by norm_num)
  · intro q hq
    fin_cases hq
    · exact ⟨1, by norm_num⟩
    · exact ⟨1, by norm_num⟩

theorem numberPrecision_one : numberPrecision [(1 : ℚ)] = 0 := by
  refine numberPrecision_eq_zero_of (by simp)
    (maxList_ne_zero_of_all (by simp) (by intro q hq; fin_cases hq <;> norm_num)) ?_
    (show (1 : ℚ) ∈ [1] by simp) (by norm_num) (by norm_num)
  · intro q hq
    fin_cases hq
    · exact ⟨1, by norm_num⟩

theorem gcdQ_ones : gcdQ [(1 : ℚ), 1] = 1 := by
  unfold gcdQ
  rw [numberPrecision_ones]
  dsimp only
  have hmap : List.map (fun q => rhe (q * (10 : ℚ) ^ (0 : ℤ))) [(1 : ℚ), 1]
      = [1, 1] := by
    simp only [List.map_cons, List.map_nil, zpow_zero, mul_one]
    rw [rhe_intValued 1 (by norm_num)]
  rw [hmap]
  rw [show gcdList [(1 : ℤ), 1] = 1 from by decide]
  rw [show ((1 : ℤ) : ℚ) / (10 : ℚ) ^ (0 : ℤ) = ((1 : ℤ) : ℚ) from by norm_num]
  rw [aroundQ_of_exact ⟨1, by norm_num⟩]
  norm_num

theorem interpQ_ones0 : interpQ 0 [(0 : ℚ), 1] [1, 1] = 1 := by
  unfold interpQ
  rw [show searchsortedL [(0 : ℚ), 1] 0 = 0 from by
    unfold searchsortedL
    simp only [List.countP_cons, List.countP_nil]
    norm_num]
  dsimp only
  norm_num [getWrapQ, List.getD]

theorem interpQ_ones1 : interpQ 1 [(0 : ℚ), 1] [1, 1] = 1 := by
  unfold interpQ
  rw [show searchsortedL [(0 : ℚ), 1] 1 = 1 from by
    unfold searchsortedL
    simp only [List.countP_cons, List.countP_nil]
    norm_num]
  dsimp only
  norm_num [getWrapQ, List.getD]

theorem numericMakeListE_ones :
    numericMakeListE ⟨[1, 1], [0, 1], .float, 0⟩ [0, 1] = some [1, 1] := by
  unfold numericMakeListE
  rw [show ((⟨[1, 1], [0, 1], .float, 0⟩ : QGen)).vals = [(1 : ℚ), 1] from rfl]
  rw [gcdE_eq (by rw [maxList_ones]; norm_num), gcdQ_ones]
  show roundxListE (List.map (fun p => astypeNum .float
      (interpQ p [(0 : ℚ), 1] [1, 1])) [0, 1]) 1 = some [1, 1]
  rw [show List.map (fun p => astypeNum .float (interpQ p [(0 : ℚ), 1] [1, 1])) [0, 1]
      = [(1 : ℚ), 1] from by
    simp only [List.map_cons, List.map_nil]
    rw [show astypeNum .float (interpQ 0 [(0 : ℚ), 1] [1, 1])
        = interpQ 0 [(0 : ℚ), 1] [1, 1] from rfl,
      show astypeNum .float (interpQ 1 [(0 : ℚ), 1] [1, 1])
        = interpQ 1 [(0 : ℚ), 1] [1, 1] from rfl,
      interpQ_ones0, interpQ_ones1]]
  unfold roundxListE numberPrecisionE
  rw [maxList_singleton, if_neg (by norm_num), numberPrecision_one]
  show some (List.map (fun v => aroundQ (1 * (rhe (v / 1) : ℚ)) 0) [(1 : ℚ), 1])
      = some [1, 1]
  rw [show List.map (fun v => aroundQ (1 * (rhe (v / 1) : ℚ)) 0) [(1 : ℚ), 1]
      = [1, 1] from by
    simp only [List.map_cons, List.map_nil]
    rw [show (1 : ℚ) / 1 = ((1 : ℤ) : ℚ) from by norm_num, rhe_intCast,
      show (1 : ℚ) * ((1 : ℤ) : ℚ) = 1 from by norm_num,
      aroundQ_of_exact ⟨1, by norm_num⟩]]

theorem categoryMakeE_single :
    categoryMakeE ⟨[.vs "a"], [1], .str, 0⟩ [0, 0] = .ok [.vs "a", .vs "a"] := rfl

/-- Claim C10: for every fitted generator and every requested size `n ≥ 0`,
the generated sequence has length exactly `n`, with or without NA injection —
`Generator.make` preserves the raw length, `Constant` and `Datetime` produce
`n` cells, and whenever the fallible `Numeric` and `Category` makers return
at all (they can raise: claims C6 and C7) they return exactly `n` cells. -/
theorem claim_C10_length (dtype : Dtype) (naRate : ℚ) (raw : List Val)
    (withNa : Bool) (u : List ℚ) (n : ℕ) (hraw : raw.length = n)
    (hu : u.length = n) :
    (makeArr dtype naRate raw withNa u).2.length = n ∧
    (∀ v : Val, (constantMake v n).length = n) ∧
    (∀ (g : QGen) (draws out : List ℚ), draws.length = n →
      numericMakeListE g draws = some out → out.length = n) ∧
    (∀ (vals draws : List ℤ), draws.length = n →
      (datetimeRawMake vals draws).length = n) ∧
    (∀ (g : CatGen) (us : List ℚ) (out : List Val), us.length = n →
      categoryMakeE g us = .ok out → out.length = n) := by
  refine ⟨?_, fun v => List.length_replicate n v, ?_, 
    fun vals draws h => by simp [datetimeRawMake, h], ?_⟩
  · unfold makeArr
    dsimp only
    split_ifs <;> simp [hraw, hu]
  · intro g draws out hd h
    unfold numericMakeListE at h
    cases hg : gcdE g.vals with
    | none =>
      rw [hg] at h
      simp at h
    | some x =>
      rw [hg] at h
      simp only [Option.some_bind] at h
      unfold roundxListE at h
      cases hp : numberPrecisionE [x] with
      | none =>
        rw [hp] at h
        simp at h
      | some nn =>
        rw [hp] at h
        simp at h
        rw [← h]
        simp [hd]
  · intro g us out hu2 h
    unfold categoryMakeE at h
    by_cases h0 : g.vals.length = 0
    · rw [if_pos h0] at h
      simp at h
    · rw [if_neg h0] at h
      simp only [Except.ok.injEq] at h
      rw [← h]
      simp [hu2]

/-- Witness for claim C10 at size 2, one concrete input per variant (the
`Numeric` and `Category` instances are genuinely fitted, nonempty ones on
which generation succeeds). -/
theorem claim_C10_length_witness :
    (makeArr .int 1 [.vi 7, .vi 8] true [0, 2]).2.length = 2 ∧
    (constantMake (.vi 5) 2).length = 2 ∧
    numericMakeListE ⟨[1, 1], [0, 1], .float, 0⟩ [0, 1] = some [1, 1] ∧
    ([1, 1] : List ℚ).length = 2 ∧
    (datetimeRawMake [0] [0, 1]).length = 2 ∧
    categoryMakeE ⟨[.vs "a"], [1], .str, 0⟩ [0, 0] = .ok [.vs "a", .vs "a"] ∧
    ([.vs "a", .vs "a"] : List Val).length = 2 :=
  ⟨(claim_C10_length .int 1 [.vi 7, .vi 8] true [0, 2] 2 rfl rfl).1,
   (claim_C10_length .int 1 [.vi 7, .vi 8] true [0, 2] 2 rfl rfl).2.1 (.vi 5),
   numericMakeListE_ones,
   (claim_C10_length .int 1 [.vi 7, .vi 8] true [0, 2] 2 rfl rfl).2.2.1
     ⟨[1, 1], [0, 1], .float, 0⟩ [0, 1] [1, 1] rfl numericMakeListE_ones,
   (claim_C10_length .int 1 [.vi 7, .vi 8] true [0, 2] 2 rfl rfl).2.2.2.1
     [0] [0, 1] rfl,
   categoryMakeE_single,
   (claim_C10_length .int 1 [.vi 7, .vi 8] true [0, 2] 2 rfl rfl).2.2.2.2
     ⟨[.vs "a"], [1], .str, 0⟩ [0, 0] [.vs "a", .vs "a"] rfl categoryMakeE_single⟩
